import Mathlib

/-!
Verification of the layout-geometry engine of zellij
(`zellij-utils/src/input/layout.rs`).

The definitions below are a shallow embedding of the Rust source.  Types
that the source imports from sibling modules of the repository that are
not part of the given sources (`pane_size.rs`: `Dimension`, `PaneGeom`;
`command.rs`: `RunCommand`; `plugins.rs`: `PluginTag`,
`PluginsConfigError`) and from the external `url` crate are modelled from
the specification, as indicated in their doc comments.  The `f64` percent
arithmetic of the source is modelled by exact rational arithmetic,
represented as unreduced integer fractions (`Frac`) so that all
definitions evaluate by kernel reduction.
-/

namespace ZellijLayout

/-- SplitDirection from layout.rs: which screen axis a node's children
subdivide. -/
inductive SplitDirection : Type where
  | horizontal
  | vertical
  deriving DecidableEq, Repr

/-- Not for SplitDirection from layout.rs: the orthogonal flip. -/
def SplitDirection.not : SplitDirection → SplitDirection
  | .horizontal => .vertical
  | .vertical => .horizontal

/-- Default for SplitDirection from layout.rs. -/
instance : Inhabited SplitDirection := ⟨.horizontal⟩

/-- SplitSize from layout.rs: the size a child occupies along its
parent's split axis. -/
inductive SplitSize : Type where
  | percent (n : Nat)
  | fixed (n : Nat)
  deriving DecidableEq, Repr

/-- Modelled from the spec: an exact rational number kept as an
unreduced fraction.  This stands for the `f64` values the source uses
for percent arithmetic; the source's floating-point operations are
modelled as exact rational operations. -/
structure Frac : Type where
  num : Int
  den : Nat
  deriving DecidableEq, Repr

/-- Frac representing a natural number. -/
def Frac.ofNat (n : Nat) : Frac := ⟨n, 1⟩

/-- Subtraction of a natural number from a Frac (used for
`p - sum of sibling percents`, where that sum is a whole number). -/
def Frac.subNat (a : Frac) (n : Nat) : Frac := ⟨a.num - n * a.den, a.den⟩

/-- Division of a Frac by a natural number (used for
`free_percent / flex_parts`). -/
def Frac.divNat (a : Frac) (n : Nat) : Frac := ⟨a.num, a.den * n⟩

/-- Floor of `a * full / 100` for a Frac `a`, as a natural number.  This
models the `as usize` truncation of the positive `f64` products in the
source. -/
def Frac.scale (a : Frac) (full : Nat) : Nat :=
  ((a.num * full).fdiv (a.den * 100)).toNat

/-- Modelled from the spec: the constraint of a `Dimension` from
`pane_size.rs` (not part of the given sources): either a fixed number of
rows/columns or a percentage of the root canvas. -/
inductive Constraint : Type where
  | fixed (n : Nat)
  | percent (p : Frac)
  deriving DecidableEq, Repr

/-- Modelled from the spec: `Dimension` from `pane_size.rs` (not part of
the given sources).  A size constraint together with its currently
resolved concrete span `inner`. -/
structure Dimension : Type where
  constraint : Constraint
  inner : Nat
  deriving DecidableEq, Repr

/-- Modelled from the spec: `Dimension::fixed`. -/
def Dimension.fixed (n : Nat) : Dimension := ⟨.fixed n, n⟩

/-- Modelled from the spec: `Dimension::percent`. -/
def Dimension.percent (p : Frac) : Dimension := ⟨.percent p, 1⟩

/-- Modelled from the spec: the resolved concrete span of a dimension. -/
def Dimension.as_usize (d : Dimension) : Nat := d.inner

/-- Modelled from the spec: the percentage of a percent-constrained
dimension, if any. -/
def Dimension.as_percent (d : Dimension) : Option Frac :=
  match d.constraint with
  | .percent p => some p
  | .fixed _ => none

/-- Modelled from the spec: re-resolve the concrete span against a full
span: a percent constraint resolves to `p` percent of `full` (the
source truncates the `f64` product to an integer), a fixed constraint to
its fixed value. -/
def Dimension.adjust_inner (d : Dimension) (full : Nat) : Dimension :=
  match d.constraint with
  | .percent p => { d with inner := p.scale full }
  | .fixed n => { d with inner := n }

/-- Modelled from the spec: grow the resolved span (rounding
correction adds the shortfall to the last child). -/
def Dimension.increase_inner (d : Dimension) (n : Nat) : Dimension :=
  { d with inner := d.inner + n }

/-- Modelled from the spec: shrink the resolved span (rounding
correction subtracts the excess from the last child); natural-number
subtraction models the saturation at zero. -/
def Dimension.decrease_inner (d : Dimension) (n : Nat) : Dimension :=
  { d with inner := d.inner - n }

/-- Modelled from the spec: `PaneGeom` from `pane_size.rs` (not part of
the given sources): a concrete rectangular region. -/
structure PaneGeom : Type where
  x : Nat
  y : Nat
  rows : Dimension
  cols : Dimension
  is_stacked : Bool
  deriving DecidableEq, Repr

/-- Modelled from the spec: a resolved leaf geometry is usable only if
it is at least the minimum size in both axes (`LayoutTooSmallForScreen`
otherwise). -/
def PaneGeom.is_at_least_minimum_size (g : PaneGeom) : Bool :=
  decide (0 < g.rows.as_usize) && decide (0 < g.cols.as_usize)

/-- Paths are modelled as plain strings. -/
abbrev PathBuf := String

/-- Modelled from the spec: `RunCommand` from `command.rs` (not part of
the given sources): program, args, working directory, hold-on-close
flag, hold-on-start flag. -/
structure RunCommand : Type where
  command : PathBuf
  args : List String
  cwd : Option PathBuf
  hold_on_close : Bool
  hold_on_start : Bool
  deriving DecidableEq, Repr

/-- Modelled from the spec: `PluginTag` from `plugins.rs` (not part of
the given sources), a plain tag string. -/
abbrev PluginTag := String

/-- RunPluginLocation from layout.rs. -/
inductive RunPluginLocation : Type where
  | file (path : PathBuf)
  | zellij (tag : PluginTag)
  deriving DecidableEq, Repr

/-- Modelled from the spec: a URL from the external `url` crate, reduced
to the data the conversions in layout.rs inspect: a scheme and a path. -/
structure Url : Type where
  scheme : String
  path : String
  deriving DecidableEq, Repr

/-- Modelled from the spec: `PluginsConfigError` from `plugins.rs` (not
part of the given sources); only the variant layout.rs produces. -/
inductive PluginsConfigError : Type where
  | invalidUrl (u : Url)
  deriving DecidableEq, Repr

/-- From<&RunPluginLocation> for Url from layout.rs: formats
`file:<path>` / `zellij:<tag>` and parses it back.  Modelled from the
spec: parsing the formatted string yields the scheme before the first
colon and the remainder as path. -/
def RunPluginLocation.toUrl : RunPluginLocation → Url
  | .file path => ⟨"file", path⟩
  | .zellij tag => ⟨"zellij", tag⟩

/-- TryFrom<Url> for RunPluginLocation from layout.rs: dispatch on the
scheme, rejecting anything other than zellij and file. -/
def RunPluginLocation.tryFromUrl (url : Url) : Except PluginsConfigError RunPluginLocation :=
  if url.scheme = "zellij" then .ok (.zellij url.path)
  else if url.scheme = "file" then .ok (.file url.path)
  else .error (.invalidUrl url)

/-- RunPlugin from layout.rs. -/
structure RunPlugin : Type where
  _allow_exec_host_cmd : Bool
  location : RunPluginLocation
  deriving DecidableEq, Repr

/-- Run from layout.rs: what a leaf pane executes. -/
inductive Run : Type where
  | plugin (p : RunPlugin)
  | command (c : RunCommand)
  | editFile (path : PathBuf) (line : Option Nat)
  | cwd (path : PathBuf)
  deriving DecidableEq, Repr

/-- Joining of paths, modelled from the spec: standard path-join
semantics where an absolute right operand replaces the left one. -/
def pathJoin (a b : PathBuf) : PathBuf :=
  if b.startsWith "/" then b else a ++ "/" ++ b

/-- Run::merge from layout.rs: the precedence table combining a
pane-template's default action with a per-instance override. -/
def Run.merge (base : Option Run) (other : Option Run) : Option Run :=
  match base, other with
  | some (.command base_run_command), some (.command other_run_command) =>
    let merged := other_run_command
    let merged :=
      if merged.cwd.isNone && base_run_command.cwd.isSome then
        { merged with cwd := base_run_command.cwd }
      else merged
    let merged :=
      if merged.args.isEmpty && !base_run_command.args.isEmpty then
        { merged with args := base_run_command.args }
      else merged
    some (.command merged)
  | some (.command base_run_command), some (.cwd other_cwd) =>
    some (.command { base_run_command with cwd := some other_cwd })
  | some (.cwd base_cwd), some (.command other_command) =>
    let merged :=
      if other_command.cwd.isNone then
        { other_command with cwd := some base_cwd }
      else other_command
    some (.command merged)
  | some (.command base_run_command), some (.editFile file_to_edit line_number) =>
    match base_run_command.cwd with
    | some c => some (.editFile (pathJoin c file_to_edit) line_number)
    | none => some (.editFile file_to_edit line_number)
  | some (.cwd c), some (.editFile file_to_edit line_number) =>
    some (.editFile (pathJoin c file_to_edit) line_number)
  | some _, some other => some other
  | some base, none => some base
  | none, some other => some other
  | none, none => none

/-- PercentOrFixed from layout.rs, used for floating-pane geometry. -/
inductive PercentOrFixed : Type where
  | percent (n : Nat)
  | fixed (n : Nat)
  deriving DecidableEq, Repr

/-- Fuel-driven floor of the base-two logarithm, structurally recursive
so that it evaluates by kernel reduction; the fuel is an upper bound on
the recursion depth. -/
def log2fuel : Nat → Nat → Nat
  | 0, _ => 0
  | fuel + 1, n => if n ≥ 2 then log2fuel fuel (n / 2) + 1 else 0

/-- Floor of the base-two logarithm of a natural number. -/
def natLog2 (n : Nat) : Nat := log2fuel n n

/-- Whether `2 ^ e` is at most the fraction (denominator positive). -/
def Frac.pow2le (e : Int) (q : Frac) : Bool :=
  if 0 ≤ e then decide ((2 ^ e.toNat : Int) * q.den ≤ q.num)
  else decide ((q.den : Int) ≤ q.num * 2 ^ (-e).toNat)

/-- Floor of the base-two logarithm of a positive fraction: the
quotient of the component logarithms, corrected by direct
comparison. -/
def Frac.log2floor (q : Frac) : Int :=
  let e0 : Int := (natLog2 q.num.toNat : Int) - (natLog2 q.den : Int)
  if Frac.pow2le (e0 + 1) q then e0 + 1
  else if Frac.pow2le e0 q then e0
  else e0 - 1

/-- Rounding of num/den (denominator positive) to the nearest integer,
ties to even. -/
def roundHalfEven (num : Int) (den : Nat) : Int :=
  let q := num.fdiv den
  let r := num - q * den
  if 2 * r < (den : Int) then q
  else if (den : Int) < 2 * r then q + 1
  else if q % 2 = 0 then q else q + 1

/-- Modelled IEEE-754 binary64 rounding: the nearest representable
double of a nonnegative exact fraction (53-bit significand, ties to
even, subnormal quantum below the normal range), as an exact fraction.
A magnitude beyond the finite double range keeps its rounded value;
the saturating usize cast downstream makes the overflow cases agree
anyway. -/
def f64round (q : Frac) : Frac :=
  if q.num ≤ 0 then ⟨0, 1⟩
  else
    let s := max (Frac.log2floor q - 52) (-1074)
    if 0 ≤ s then
      ⟨roundHalfEven q.num (q.den * 2 ^ s.toNat) * 2 ^ s.toNat, 1⟩
    else
      ⟨roundHalfEven (q.num * 2 ^ (-s).toNat) q.den, 2 ^ (-s).toNat⟩

/-- Ceiling of a fraction (denominator positive). -/
def Frac.fceil (q : Frac) : Int := -((-q.num).fdiv q.den)

/-- The saturating float-to-usize cast of Rust: negative values clamp
to zero, values beyond the usize range to its maximum. -/
def usizeSat (c : Int) : Nat := min c.toNat (2 ^ 64 - 1)

/-- PercentOrFixed::to_position from layout.rs.  The percent branch is
the source expression `(whole as f64 / 100.0 * percent as f64).ceil()
as usize`, modelled with exact binary64 semantics: the two integer-to-
double conversions, the division by the exactly representable 100.0 and
the multiplication each round their exact rational value to the nearest
double; the ceiling is exact on the represented value and the final
cast saturates to the usize range.  The fixed branch clamps to the
whole span. -/
def PercentOrFixed.to_position (s : PercentOrFixed) (whole : Nat) : Nat :=
  match s with
  | .percent p =>
    let wf := f64round ⟨(whole : Int), 1⟩
    let pf := f64round ⟨(p : Int), 1⟩
    let quot := f64round ⟨wf.num, wf.den * 100⟩
    let prod := f64round ⟨quot.num * pf.num, quot.den * pf.den⟩
    usizeSat (Frac.fceil prod)
  | .fixed f => if f > whole then whole else f

/-- PercentOrFixed::is_zero from layout.rs. -/
def PercentOrFixed.is_zero : PercentOrFixed → Bool
  | .percent p => p == 0
  | .fixed f => f == 0

/-- FloatingPaneLayout from layout.rs. -/
structure FloatingPaneLayout : Type where
  name : Option String
  height : Option PercentOrFixed
  width : Option PercentOrFixed
  x : Option PercentOrFixed
  y : Option PercentOrFixed
  run : Option Run
  focus : Option Bool
  deriving DecidableEq, Repr

/-- LayoutConstraint from layout.rs: ordering key for swap layouts. -/
inductive LayoutConstraint : Type where
  | maxPanes (n : Nat)
  | minPanes (n : Nat)
  | noConstraint
  deriving DecidableEq, Repr

/-- TiledPaneLayout from layout.rs: the recursive layout tree node. -/
inductive TiledPaneLayout : Type where
  | mk
    (children_split_direction : SplitDirection)
    (name : Option String)
    (children : List TiledPaneLayout)
    (split_size : Option SplitSize)
    (run : Option Run)
    (borderless : Bool)
    (focus : Option Bool)
    (external_children_index : Option Nat)
    (children_are_stacked : Bool)

namespace TiledPaneLayout

/-- Field projection: children_split_direction. -/
def children_split_direction : TiledPaneLayout → SplitDirection
  | .mk d _ _ _ _ _ _ _ _ => d

/-- Field projection: name. -/
def name : TiledPaneLayout → Option String
  | .mk _ n _ _ _ _ _ _ _ => n

/-- Field projection: children. -/
def children : TiledPaneLayout → List TiledPaneLayout
  | .mk _ _ c _ _ _ _ _ _ => c

/-- Field projection: split_size. -/
def split_size : TiledPaneLayout → Option SplitSize
  | .mk _ _ _ s _ _ _ _ _ => s

/-- Field projection: run. -/
def run : TiledPaneLayout → Option Run
  | .mk _ _ _ _ r _ _ _ _ => r

/-- Field projection: borderless. -/
def borderless : TiledPaneLayout → Bool
  | .mk _ _ _ _ _ b _ _ _ => b

/-- Field projection: focus. -/
def focus : TiledPaneLayout → Option Bool
  | .mk _ _ _ _ _ _ f _ _ => f

/-- Field projection: external_children_index. -/
def external_children_index : TiledPaneLayout → Option Nat
  | .mk _ _ _ _ _ _ _ e _ => e

/-- Field projection: children_are_stacked. -/
def children_are_stacked : TiledPaneLayout → Bool
  | .mk _ _ _ _ _ _ _ _ s => s

/-- Functional update of the children list. -/
def withChildren : TiledPaneLayout → List TiledPaneLayout → TiledPaneLayout
  | .mk d n _ s r b f e st, c => .mk d n c s r b f e st

/-- Functional update of the focus flag. -/
def withFocus : TiledPaneLayout → Option Bool → TiledPaneLayout
  | .mk d n c s r b _ e st, f => .mk d n c s r b f e st

/-- Functional update of the external_children_index marker. -/
def withExternalChildrenIndex : TiledPaneLayout → Option Nat → TiledPaneLayout
  | .mk d n c s r b f _ st, e => .mk d n c s r b f e st

/-- Default for TiledPaneLayout from layout.rs: all fields at their
default values. -/
def default : TiledPaneLayout :=
  .mk .horizontal none [] none none false none none false

instance : Inhabited TiledPaneLayout := ⟨default⟩

end TiledPaneLayout

/-- SwapTiledLayout from layout.rs; the `BTreeMap` of the source is
modelled as an association list. -/
abbrev SwapTiledLayout := List (LayoutConstraint × TiledPaneLayout) × Option String

/-- SwapFloatingLayout from layout.rs; the `BTreeMap` of the source is
modelled as an association list. -/
abbrev SwapFloatingLayout := List (LayoutConstraint × List FloatingPaneLayout) × Option String

/-- Layout from layout.rs: the document root. -/
structure Layout : Type where
  tabs : List (Option String × TiledPaneLayout × List FloatingPaneLayout)
  focused_tab_index : Option Nat
  template : Option (TiledPaneLayout × List FloatingPaneLayout)
  swap_layouts : List (TiledPaneLayout × List FloatingPaneLayout)
  swap_tiled_layouts : List SwapTiledLayout
  swap_floating_layouts : List SwapFloatingLayout

/-- Layout::is_empty from layout.rs. -/
def Layout.is_empty (l : Layout) : Bool := !l.tabs.isEmpty

/-- Layout::has_tabs from layout.rs. -/
def Layout.has_tabs (l : Layout) : Bool := !l.tabs.isEmpty

/-- Replacement of the last element of a list (the source's
`last_mut()` mutation); the empty list is left unchanged. -/
def modifyLast {α : Type} (f : α → α) : List α → List α
  | [] => []
  | [a] => [f a]
  | a :: b :: rest => a :: modifyLast f (b :: rest)

mutual

/-- TiledPaneLayout::pane_count from layout.rs: the number of leaves (a
childless node counts as one, an internal node sums its children). -/
def TiledPaneLayout.pane_count : TiledPaneLayout → Nat
  | .mk _ _ children _ _ _ _ _ _ =>
    if children.isEmpty then 1 else TiledPaneLayout.paneCountList children

/-- Folded sum of pane_count over a children list (the source's loop). -/
def TiledPaneLayout.paneCountList : List TiledPaneLayout → Nat
  | [] => 0
  | child :: rest => TiledPaneLayout.pane_count child + TiledPaneLayout.paneCountList rest

end

mutual

/-- TiledPaneLayout::extract_run_instructions from layout.rs: run
instructions of the leaves, in depth-first pre-order. -/
def TiledPaneLayout.extract_run_instructions : TiledPaneLayout → List (Option Run)
  | .mk _ _ children _ run _ _ _ _ =>
    (if children.isEmpty then [run] else []) ++
      TiledPaneLayout.extractRunList children

/-- Concatenation of extract_run_instructions over a children list (the
source's loop). -/
def TiledPaneLayout.extractRunList : List TiledPaneLayout → List (Option Run)
  | [] => []
  | child :: rest =>
    TiledPaneLayout.extract_run_instructions child ++ TiledPaneLayout.extractRunList rest

end

mutual

/-- TiledPaneLayout::deepest_depth from layout.rs: one more than the
greatest depth of a child. -/
def TiledPaneLayout.deepest_depth : TiledPaneLayout → Nat
  | .mk _ _ children _ _ _ _ _ _ => TiledPaneLayout.deepestDepthList children 0 + 1

/-- The source's loop computing the maximum deepest_depth of the
children, threading the accumulator. -/
def TiledPaneLayout.deepestDepthList : List TiledPaneLayout → Nat → Nat
  | [], acc => acc
  | child :: rest, acc =>
    let d := TiledPaneLayout.deepest_depth child
    TiledPaneLayout.deepestDepthList rest (if d > acc then d else acc)

end

/-- The index-selection loop of TiledPaneLayout::focus_deepest_pane
from layout.rs: the last child attaining the maximal deepest_depth
(ties broken by later children via the non-strict comparison), starting
from a threshold of zero and no index. -/
def TiledPaneLayout.pickDeepestAux :
    List TiledPaneLayout → Nat → Nat → Option Nat → Option Nat
  | [], _, _, deepest_child_index => deepest_child_index
  | child :: rest, i, deepest_path, deepest_child_index =>
    let child_deepest_path := child.deepest_depth
    if child_deepest_path ≥ deepest_path then
      TiledPaneLayout.pickDeepestAux rest (i + 1) child_deepest_path (some i)
    else
      TiledPaneLayout.pickDeepestAux rest (i + 1) deepest_path deepest_child_index

/-- Entry point of the index-selection loop of focus_deepest_pane. -/
def TiledPaneLayout.pickDeepest (children : List TiledPaneLayout) : Option Nat :=
  TiledPaneLayout.pickDeepestAux children 0 0 none

mutual

/-- TiledPaneLayout::focus_deepest_pane from layout.rs: descend into
the child with the greatest deepest_depth until a childless node is
reached, and mark it focused. -/
def TiledPaneLayout.focus_deepest_pane : TiledPaneLayout → TiledPaneLayout
  | .mk d n children s r b f e st =>
    match TiledPaneLayout.pickDeepest children with
    | some deepest_child_index =>
      .mk d n (TiledPaneLayout.focusDeepestAt children deepest_child_index) s r b f e st
    | none => .mk d n children s r b (some true) e st

/-- In-place update of the chosen child (the source's `get_mut`
followed by the recursive call); an out-of-range index leaves the list
unchanged. -/
def TiledPaneLayout.focusDeepestAt : List TiledPaneLayout → Nat → List TiledPaneLayout
  | [], _ => []
  | child :: rest, 0 => TiledPaneLayout.focus_deepest_pane child :: rest
  | child :: rest, k + 1 => child :: TiledPaneLayout.focusDeepestAt rest k

end

mutual

/-- TiledPaneLayout::has_focused_node from layout.rs: whether this node
or any descendant has its focus flag set to true. -/
def TiledPaneLayout.has_focused_node : TiledPaneLayout → Bool
  | .mk _ _ children _ _ _ focus _ _ =>
    if focus.getD false then true else TiledPaneLayout.hasFocusedList children

/-- The source's loop checking the children for a focused node. -/
def TiledPaneLayout.hasFocusedList : List TiledPaneLayout → Bool
  | [] => false
  | child :: rest =>
    if TiledPaneLayout.has_focused_node child then true
    else TiledPaneLayout.hasFocusedList rest

end

mutual

/-- TiledPaneLayout::truncate from layout.rs: shrink the tree in place
to at most max_panes leaves; the second component is the source's
return value (the resulting direct-child count, or one for a leaf). -/
def TiledPaneLayout.truncate : TiledPaneLayout → Nat → TiledPaneLayout × Nat
  | .mk d n children s r b f e st, max_panes =>
    let children' :=
      if max_panes ≤ 1 then []
      else if max_panes ≤ children.length then
        (children.take max_panes).map (fun l => l.withChildren [])
      else
        let remaining_panes :=
          max_panes - (children.filter (fun c => c.children.isEmpty)).length
        TiledPaneLayout.truncateGo children remaining_panes
    (.mk d n children' s r b f e st,
      if children'.length > 0 then children'.length else 1)

/-- The source's budget-distribution loop over the children, threading
`remaining_panes` and subtracting each truncated child's return
value. -/
def TiledPaneLayout.truncateGo : List TiledPaneLayout → Nat → List TiledPaneLayout
  | [], _ => []
  | child :: rest, remaining_panes =>
    if remaining_panes > 1 && child.children.length > 0 then
      let res := TiledPaneLayout.truncate child remaining_panes
      res.1 :: TiledPaneLayout.truncateGo rest (remaining_panes - res.2)
    else
      child.withChildren [] :: TiledPaneLayout.truncateGo rest remaining_panes

end

/-- Insertion into a vector at an index (`Vec::insert`); an index past
the end is the source's index-out-of-bounds abort, modelled as an
error. -/
def insertAt {α : Type} (l : List α) (i : Nat) (a : α) : Except String (List α) :=
  if i ≤ l.length then .ok (l.take i ++ a :: l.drop i)
  else .error "insertion index out of bounds"

/-- The drain loop of TiledPaneLayout::insert_children_nodes: insert
each node (already reversed by the caller) at the marker index. -/
def insertAllAt :
    List TiledPaneLayout → Nat → List TiledPaneLayout → Except String (List TiledPaneLayout)
  | cs, _, [] => .ok cs
  | cs, i, node :: rest => do
    let cs' ← insertAt cs i node
    insertAllAt cs' i rest

mutual

/-- TiledPaneLayout::insert_children_nodes from layout.rs: depth-first
pre-order search for a node carrying external_children_index; splice
the supplied nodes there and clear the marker.  The result is the
returned flag, the updated tree, and what remains of the supplied node
list (drained to empty on success, untouched otherwise). -/
def TiledPaneLayout.insert_children_nodes :
    TiledPaneLayout → List TiledPaneLayout →
      Except String (Bool × TiledPaneLayout × List TiledPaneLayout)
  | .mk d n children s r b f e st, children_nodes =>
    match e with
    | some external_children_index => do
      let children' ← insertAllAt children external_children_index children_nodes.reverse
      .ok (true, .mk d n children' s r b f none st, [])
    | none => do
      let res ← TiledPaneLayout.insertNodesGo children children_nodes
      .ok (res.1, .mk d n res.2.1 s r b f none st, res.2.2)

/-- The source's loop over the children, threading the node list and
stopping at the first successful insertion. -/
def TiledPaneLayout.insertNodesGo :
    List TiledPaneLayout → List TiledPaneLayout →
      Except String (Bool × List TiledPaneLayout × List TiledPaneLayout)
  | [], nodes => .ok (false, [], nodes)
  | pane :: rest, nodes => do
    let res ← TiledPaneLayout.insert_children_nodes pane nodes
    if res.1 then
      .ok (true, res.2.1 :: rest, res.2.2)
    else do
      let rr ← TiledPaneLayout.insertNodesGo rest res.2.2
      .ok (rr.1, res.2.1 :: rr.2.1, rr.2.2)

end

mutual

/-- TiledPaneLayout::children_block_count from layout.rs: the number of
unresolved external_children_index markers in the subtree. -/
def TiledPaneLayout.children_block_count : TiledPaneLayout → Nat
  | .mk _ _ children _ _ _ _ e _ =>
    (if e.isSome then 1 else 0) + TiledPaneLayout.blockCountList children

/-- The source's loop summing children_block_count over the children. -/
def TiledPaneLayout.blockCountList : List TiledPaneLayout → Nat
  | [] => 0
  | child :: rest =>
    TiledPaneLayout.children_block_count child + TiledPaneLayout.blockCountList rest

end

/-- Dimension of a geometry along a split axis: the dimension a node
with this children_split_direction subdivides (the source's
destructuring into `split_dimension_space` / `total_split_dimension_space`). -/
def axisDimension (dir : SplitDirection) (g : PaneGeom) : Dimension :=
  match dir with
  | .vertical => g.cols
  | .horizontal => g.rows

/-- Starting coordinate along a split axis (the source's
`current_position` initial value). -/
def axisStart (dir : SplitDirection) (g : PaneGeom) : Nat :=
  match dir with
  | .vertical => g.x
  | .horizontal => g.y

/-- The `sizes` vector of split_space from layout.rs: the children's
split sizes, or, for stacked children, Fixed(1) for every child except
the last, which becomes flexible. -/
def TiledPaneLayout.sizesOf (layout : TiledPaneLayout) : List (Option SplitSize) :=
  if layout.children_are_stacked then
    modifyLast (fun _ => none)
      (layout.children.map (fun _ => some (SplitSize.fixed 1)))
  else
    layout.children.map (fun part => part.split_size)

/-- The minimum-size fold of split_space from layout.rs: one unit per
percent-sized or flexible child, n units per Fixed(n) child. -/
def minSizeForPanes (sizes : List (Option SplitSize)) : Nat :=
  sizes.foldl
    (fun acc size =>
      match size with
      | some (.percent _) | none => acc + 1
      | some (.fixed f) => acc + f)
    0

/-- The total fixed size fold of split_space from layout.rs. -/
def totalFixedSize (sizes : List (Option SplitSize)) : Nat :=
  sizes.foldl
    (fun acc s =>
      match s with
      | some (.fixed f) => acc + f
      | _ => acc)
    0

/-- The per-child dimension computation of split_space from layout.rs:
percent and fixed sizes become the corresponding constraints, a
flexible child receives an equal share of the percentage left after the
explicit sibling percents; if the space being split is not
percent-denominated the source aborts, modelled as an error. -/
def splitDimensionFor (size : Option SplitSize) (split_dimension_space : Dimension)
    (sizes : List (Option SplitSize)) (flex_parts : Nat) : Except String Dimension :=
  match size with
  | some (.percent p) => .ok (Dimension.percent (Frac.ofNat p))
  | some (.fixed f) => .ok (Dimension.fixed f)
  | none =>
    match split_dimension_space.as_percent with
    | some p =>
      let explicit := sizes.foldl
        (fun acc s =>
          match s with
          | some (.percent ip) => acc + ip
          | _ => acc)
        0
      .ok (Dimension.percent ((p.subNat explicit).divNat flex_parts))
    | none => .error "Implicit sizing within fixed-size panes is not supported"

/-- The geometry-building loop of split_space from layout.rs: one
geometry per size entry, threading `current_position`. -/
def rawChildGeomsGo (dir : SplitDirection) (stacked : Bool) (space_to_split : PaneGeom)
    (split_dimension_space inherited_dimension : Dimension) (adjust_full : Nat)
    (sizes_all : List (Option SplitSize)) (flex_parts : Nat) :
    List (Option SplitSize) → Nat → Except String (List PaneGeom)
  | [], _ => .ok []
  | size :: rest, current_position => do
    let sd ← splitDimensionFor size split_dimension_space sizes_all flex_parts
    let split_dimension := sd.adjust_inner adjust_full
    let geom : PaneGeom :=
      match dir with
      | .vertical =>
        { x := current_position, y := space_to_split.y,
          cols := split_dimension, rows := inherited_dimension, is_stacked := stacked }
      | .horizontal =>
        { x := space_to_split.x, y := current_position,
          cols := inherited_dimension, rows := split_dimension, is_stacked := stacked }
    let restGeoms ← rawChildGeomsGo dir stacked space_to_split split_dimension_space
      inherited_dimension adjust_full sizes_all flex_parts rest
      (current_position + split_dimension.as_usize)
    .ok (geom :: restGeoms)

/-- The per-node sizing phase of split_space from layout.rs, before the
rounding correction: the minimum-size check followed by the
geometry-building loop. -/
def TiledPaneLayout.rawChildGeoms (space_to_split : PaneGeom) (layout : TiledPaneLayout)
    (total_space_to_split : PaneGeom) : Except String (List PaneGeom) :=
  let sizes := layout.sizesOf
  let dir := layout.children_split_direction
  let split_dimension_space := axisDimension dir space_to_split
  let inherited_dimension := axisDimension dir.not space_to_split
  let total_split_dimension_space := axisDimension dir total_space_to_split
  if minSizeForPanes sizes > split_dimension_space.as_usize then
    .error "Not enough room for panes"
  else
    let flex_parts := (sizes.filter Option.isNone).length
    rawChildGeomsGo dir layout.children_are_stacked space_to_split split_dimension_space
      inherited_dimension (total_split_dimension_space.as_usize - totalFixedSize sizes)
      sizes flex_parts sizes (axisStart dir space_to_split)

/-- Sum of the resolved spans of a list of geometries along a split
axis (the source's `total_pane_size` accumulator). -/
def axisSum (dir : SplitDirection) (geoms : List PaneGeom) : Nat :=
  (geoms.map (fun g => (axisDimension dir g).as_usize)).sum

/-- The rounding-correction step of split_space from layout.rs: a
shortfall against the available span is added to the last geometry, an
excess is subtracted from it. -/
def correctGeoms (dir : SplitDirection) (span : Nat) (geoms : List PaneGeom) : List PaneGeom :=
  let total_pane_size := axisSum dir geoms
  if total_pane_size < span then
    modifyLast
      (fun g =>
        match dir with
        | .vertical => { g with cols := g.cols.increase_inner (span - total_pane_size) }
        | .horizontal => { g with rows := g.rows.increase_inner (span - total_pane_size) })
      geoms
  else if total_pane_size > span then
    modifyLast
      (fun g =>
        match dir with
        | .vertical => { g with cols := g.cols.decrease_inner (total_pane_size - span) }
        | .horizontal => { g with rows := g.rows.decrease_inner (total_pane_size - span) })
      geoms
  else geoms

/-- The complete per-node sizing of split_space from layout.rs: raw
geometries followed by the rounding correction. -/
def TiledPaneLayout.childGeoms (space_to_split : PaneGeom) (layout : TiledPaneLayout)
    (total_space_to_split : PaneGeom) : Except String (List PaneGeom) :=
  (TiledPaneLayout.rawChildGeoms space_to_split layout total_space_to_split).map
    (correctGeoms layout.children_split_direction
      (axisDimension layout.children_split_direction space_to_split).as_usize)

mutual

/-- split_space from layout.rs: recursively partition the space among
the children and collect the leaf geometries in depth-first pre-order;
a node with no children emits itself with the whole given space. -/
def TiledPaneLayout.split_space :
    PaneGeom → TiledPaneLayout → PaneGeom → Except String (List (TiledPaneLayout × PaneGeom))
  | space_to_split, .mk d n children s r b f e st, total_space_to_split => do
    let split_geom ←
      TiledPaneLayout.childGeoms space_to_split (.mk d n children s r b f e st)
        total_space_to_split
    let pane_positions ← TiledPaneLayout.splitSpaceGo children split_geom total_space_to_split
    if pane_positions.isEmpty then
      .ok [(.mk d n children s r b f e st, space_to_split)]
    else
      .ok pane_positions

/-- The recursion loop of split_space from layout.rs: each child with
children is split inside its geometry, each childless child is emitted
with its geometry; a missing geometry is the source's index-out-of-
bounds abort, modelled as an error. -/
def TiledPaneLayout.splitSpaceGo :
    List TiledPaneLayout → List PaneGeom → PaneGeom →
      Except String (List (TiledPaneLayout × PaneGeom))
  | [], _, _ => .ok []
  | part :: rest, geoms, total_space_to_split =>
    match geoms with
    | [] => .error "missing geometry for pane"
    | geom :: grest => do
      let here ←
        if part.children.isEmpty then .ok [(part, geom)]
        else TiledPaneLayout.split_space geom part total_space_to_split
      let there ← TiledPaneLayout.splitSpaceGo rest grest total_space_to_split
      .ok (here ++ there)

end

/-- The max_panes adaptation stage of
TiledPaneLayout::position_panes_in_space from layout.rs: grow the tree
with placeholder leaves at an insertion marker (marking the last one
focused when nothing is focused yet) or truncate it, then guarantee a
focused node via focus_deepest_pane. -/
def TiledPaneLayout.adjustForMaxPanes (t : TiledPaneLayout) (max_panes : Nat) :
    Except String TiledPaneLayout := do
  let layout_to_split := t
  let pane_count_in_layout := layout_to_split.pane_count
  let layout_to_split ←
    if max_panes > pane_count_in_layout then do
      let children_count := (max_panes - pane_count_in_layout) + 1
      let extra_children := List.replicate children_count TiledPaneLayout.default
      let extra_children :=
        if ! layout_to_split.has_focused_node then
          modifyLast (fun last_child => last_child.withFocus (some true)) extra_children
        else extra_children
      let ins ← layout_to_split.insert_children_nodes extra_children
      pure ins.2.1
    else
      pure (layout_to_split.truncate max_panes).1
  pure
    (if ! layout_to_split.has_focused_node then layout_to_split.focus_deepest_pane
     else layout_to_split)

/-- TiledPaneLayout::position_panes_in_space from layout.rs: adapt the
tree to max_panes if given (growing at an insertion marker or
truncating), guarantee a focused node, solve the geometry, and reject
any leaf below the minimum usable size. -/
def TiledPaneLayout.position_panes_in_space (t : TiledPaneLayout) (space : PaneGeom)
    (max_panes : Option Nat) : Except String (List (TiledPaneLayout × PaneGeom)) := do
  let layouts ←
    match max_panes with
    | some max_panes => do
      let layout_to_split ← t.adjustForMaxPanes max_panes
      TiledPaneLayout.split_space space layout_to_split space
    | none => TiledPaneLayout.split_space space t space
  if layouts.any (fun pg => ! pg.2.is_at_least_minimum_size) then
    .error "No room on screen for this layout!"
  else
    .ok layouts

mutual

/-- Specification-side vocabulary: the leaves of a layout tree in
depth-first pre-order, child-list order. -/
def leafNodes : TiledPaneLayout → List TiledPaneLayout
  | .mk d n children s r b f e st =>
    if children.isEmpty then [.mk d n children s r b f e st]
    else leafNodesList children

/-- Concatenation of leafNodes over a children list. -/
def leafNodesList : List TiledPaneLayout → List TiledPaneLayout
  | [] => []
  | child :: rest => leafNodes child ++ leafNodesList rest

end

/-- Specification-side vocabulary: the number of leaves whose focus
flag is set to true. -/
def focusedLeafCount (t : TiledPaneLayout) : Nat :=
  (leafNodes t).countP (fun c => c.focus == some true)

/-- Specification-side vocabulary: the minimum-size bound of the claim,
violated at a node when the children's declared minimum sizes exceed
the span available to the node along its split axis. -/
def nodeMinViolation (s : PaneGeom) (t : TiledPaneLayout) : Prop :=
  minSizeForPanes t.sizesOf > (axisDimension t.children_split_direction s).as_usize

instance (s : PaneGeom) (t : TiledPaneLayout) : Decidable (nodeMinViolation s t) := by
  unfold nodeMinViolation; infer_instance

/-- Specification-side vocabulary: the nodes split_space visits,
together with the sub-space each receives.  The root is visited; and if
the per-node sizing succeeds, every child with children whose earlier
siblings were all processed successfully is visited inside its
geometry. -/
inductive Visits : PaneGeom → TiledPaneLayout → PaneGeom → PaneGeom → TiledPaneLayout → Prop where
  | refl (s : PaneGeom) (t : TiledPaneLayout) (total : PaneGeom) : Visits s t total s t
  | step {s : PaneGeom} {t : TiledPaneLayout} {total s' : PaneGeom} {t' : TiledPaneLayout}
      {s'' : PaneGeom} {t'' : TiledPaneLayout} (gs : List PaneGeom) (i : Nat) :
      TiledPaneLayout.childGeoms s t total = .ok gs →
      t.children.get? i = some t' →
      gs.get? i = some s' →
      t'.children ≠ [] →
      (TiledPaneLayout.splitSpaceGo (t.children.take i) (gs.take i) total).isOk = true →
      Visits s' t' total s'' t'' →
      Visits s t total s'' t''

/-- Specification-side vocabulary: the second tree is the first with
exactly one childless node's focus flag set to true, every other field
of every node unchanged. -/
inductive MarksOneLeaf : TiledPaneLayout → TiledPaneLayout → Prop where
  | leaf (d : SplitDirection) (n : Option String) (s : Option SplitSize) (r : Option Run)
      (b : Bool) (f : Option Bool) (e : Option Nat) (st : Bool) :
      MarksOneLeaf (.mk d n [] s r b f e st) (.mk d n [] s r b (some true) e st)
  | child (d : SplitDirection) (n : Option String) (s : Option SplitSize) (r : Option Run)
      (b : Bool) (f : Option Bool) (e : Option Nat) (st : Bool)
      (cs : List TiledPaneLayout) (k : Nat) (c c' : TiledPaneLayout) :
      cs.get? k = some c →
      MarksOneLeaf c c' →
      MarksOneLeaf (.mk d n cs s r b f e st) (.mk d n (cs.set k c') s r b f e st)

mutual

/-- Specification-side description of insert_children_nodes, following
the spec's words: at the first node in depth-first pre-order carrying
an external_children_index marker, splice the supplied nodes into the
children list at that index, preserving their order, and clear the
marker. -/
def spliceFirstMarker : TiledPaneLayout → List TiledPaneLayout → TiledPaneLayout
  | .mk d n children s r b f e st, nodes =>
    match e with
    | some i => .mk d n (children.take i ++ nodes ++ children.drop i) s r b f none st
    | none => .mk d n (spliceFirstMarkerList children nodes) s r b f none st

/-- Splice into the first child subtree that contains a marker. -/
def spliceFirstMarkerList : List TiledPaneLayout → List TiledPaneLayout → List TiledPaneLayout
  | [], _ => []
  | c :: rest, nodes =>
    if c.children_block_count > 0 then spliceFirstMarker c nodes :: rest
    else c :: spliceFirstMarkerList rest nodes

end

/-- A default leaf node. -/
def leafT : TiledPaneLayout := TiledPaneLayout.default

/-- A leaf node carrying a split size. -/
def leafSized (s : SplitSize) : TiledPaneLayout :=
  .mk .horizontal none [] (some s) none false none none false

/-- A leaf node carrying a name and a focus flag. -/
def leafNamed (nm : String) (foc : Option Bool) : TiledPaneLayout :=
  .mk .horizontal (some nm) [] none none false foc none false

/-- A vertically splitting internal node. -/
def nodeV (cs : List TiledPaneLayout) (s : Option SplitSize) : TiledPaneLayout :=
  .mk .vertical none cs s none false none none false

/-- A 100-column, 50-row percent-denominated space. -/
def space100 : PaneGeom :=
  { x := 0, y := 0, cols := ⟨.percent ⟨100, 1⟩, 100⟩, rows := ⟨.percent ⟨100, 1⟩, 50⟩,
    is_stacked := false }

/-- Two Fixed(50) children splitting space100 vertically. -/
def twoFixed : TiledPaneLayout := nodeV [leafSized (.fixed 50), leafSized (.fixed 50)] none

/-- An inner node whose children declare Percent(90) and Fixed(1): the
percent resolves against the root canvas, far exceeding the five
columns the node itself occupies. -/
def nodeA : TiledPaneLayout :=
  nodeV [leafSized (.percent 90), leafSized (.fixed 1)] (some (.fixed 5))

/-- A root giving nodeA five columns and the rest to a flexible leaf. -/
def overflowTree : TiledPaneLayout := nodeV [nodeA, leafT] none

/-- The geometry nodeA receives from the root split of overflowTree. -/
def spaceA : PaneGeom :=
  { x := 0, y := 0, cols := ⟨.fixed 5, 5⟩, rows := ⟨.percent ⟨100, 1⟩, 50⟩,
    is_stacked := false }

/-- An eight-leaf tree whose first child hides leaves two levels deep:
root [C, D, E] with C = [P, Q], P = [p1, p2, p3], and D, E two-leaf
nodes. -/
def deepTruncTree : TiledPaneLayout :=
  nodeV [nodeV [nodeV [leafT, leafT, leafT] none, leafT] none,
         nodeV [leafT, leafT] none,
         nodeV [leafT, leafT] none] none

/-- Three named leaves with the last one focused. -/
def focusDropTree : TiledPaneLayout :=
  nodeV [leafNamed "a" none, leafNamed "b" none, leafNamed "c" (some true)] none

/-- A node with two named children and an insertion marker at index
one. -/
def markerTree : TiledPaneLayout :=
  .mk .vertical none [leafNamed "x" none, leafNamed "y" none] none none false none
    (some 1) false

/-- A single Fixed(200) child: more than space100 offers. -/
def crampedTree : TiledPaneLayout := nodeV [leafSized (.fixed 200)] none

/-! ## Theorems -/

/-- Induction over the nested layout tree: a property holds of every
tree once it holds of every node given that it holds of all its
children. -/
theorem TiledPaneLayout.ind_on (P : TiledPaneLayout → Prop)
    (h : ∀ d n cs s r b f e st, (∀ c ∈ cs, P c) → P (.mk d n cs s r b f e st)) :
    ∀ t, P t := by
  intro t
  induction t using TiledPaneLayout.rec (motive_2 := fun cs => ∀ c ∈ cs, P c) with
  | mk d n cs s r b f e st ih => exact h d n cs s r b f e st ih
  | nil => rename_i c hc; cases hc
  | cons head tail ih1 ih2 =>
    rename_i c hc
    cases hc with
    | head => exact ih1
    | tail _ h2 => exact ih2 _ h2

/-- C5: merging a base Run::Command with a Run::Cwd yields the base
command with its cwd replaced by the Cwd path, whether or not the base
already carried a cwd. -/
theorem claim_C5_merge_command_cwd (base : RunCommand) (p : PathBuf) :
    Run.merge (some (.command base)) (some (.cwd p)) =
      some (.command { base with cwd := some p }) := rfl

/-- C9: Layout::is_empty returns true exactly when the tab list is
non-empty, the same value as has_tabs and the inverse of what its name
suggests. -/
theorem claim_C9_is_empty_inverted (l : Layout) :
    (l.is_empty = true ↔ l.tabs ≠ []) ∧ l.is_empty = l.has_tabs := by
  constructor
  · simp [Layout.is_empty]
  · rfl

/-- C8: a RunPluginLocation converts to its URL form and back to the
same value; a URL with scheme file or zellij converts to a location and
back to the same URL; any other scheme is rejected with the InvalidUrl
error. -/
theorem claim_C8_url_roundtrip :
    (∀ loc : RunPluginLocation, RunPluginLocation.tryFromUrl loc.toUrl = .ok loc) ∧
    (∀ u : Url, u.scheme = "file" ∨ u.scheme = "zellij" →
      ∃ loc, RunPluginLocation.tryFromUrl u = .ok loc ∧ loc.toUrl = u) ∧
    (∀ u : Url, u.scheme ≠ "file" → u.scheme ≠ "zellij" →
      RunPluginLocation.tryFromUrl u = .error (.invalidUrl u)) := by
  refine ⟨?_, ?_, ?_⟩
  · intro loc
    cases loc <;> rfl
  · intro u h
    obtain ⟨s, p⟩ := u
    rcases h with h | h <;> subst h
    · exact ⟨.file p, rfl, rfl⟩
    · exact ⟨.zellij p, rfl, rfl⟩
  · intro u h1 h2
    obtain ⟨s, p⟩ := u
    simp only [Url.scheme] at h1 h2
    simp [RunPluginLocation.tryFromUrl, h1, h2]

/-- Witness for C8 at concrete URLs: `file:/a/b` round-trips, and an
http scheme yields the InvalidUrl error. -/
theorem claim_C8_url_roundtrip_witness :
    (∃ loc, RunPluginLocation.tryFromUrl ⟨"file", "/a/b"⟩ = .ok loc ∧
      loc.toUrl = ⟨"file", "/a/b"⟩) ∧
    RunPluginLocation.tryFromUrl ⟨"http", "/x"⟩ = .error (.invalidUrl ⟨"http", "/x"⟩) :=
  ⟨claim_C8_url_roundtrip.2.1 ⟨"file", "/a/b"⟩ (Or.inl rfl),
   claim_C8_url_roundtrip.2.2 ⟨"http", "/x"⟩ (by decide) (by decide)⟩

set_option maxRecDepth 4000 in
/-- C7 counterexample: the source computes the percent branch in IEEE
binary64, and at whole = 7 with Percent(100) the double 7/100.0,
multiplied back by 100.0, rounds to 7.000000000000001, whose ceiling
is 8 — one more than the exact ceiling of 7 * 100 / 100 = 7 that the
claim asserts. -/
theorem claim_C7_counterexample :
    (PercentOrFixed.percent 100).to_position 7 = 8 ∧
    (Int.ceil (((7 * 100 : Nat) : ℚ) / 100)).toNat = 7 ∧
    (8 : Nat) ≠ 7 := by
  refine ⟨rfl, ?_, by omega⟩
  have hc : Int.ceil (((7 * 100 : Nat) : ℚ) / 100) = 7 := by norm_num
  rw [hc]
  rfl

set_option maxRecDepth 4000 in
/-- C7 (amended): to_position resolves Fixed(n) to `min n whole`, in
particular Fixed(200) against a span of 80 is clamped to 80.  The
percent branch computes the ceiling over binary64 arithmetic, which
can exceed the exact ceiling of `whole * p / 100` by one when the
rounded product lands just above an integer: at whole 7 with
Percent(100) (exact value 7) the result is 8, likewise at 14 with
Percent(50) and at 28 with Percent(25); at inputs whose double product
is exact, such as 80 with Percent(30), it equals the exact ceiling
24. -/
theorem claim_C7_to_position_f64 (n whole : Nat) :
    (PercentOrFixed.fixed n).to_position whole = min n whole ∧
    (PercentOrFixed.fixed 200).to_position 80 = 80 ∧
    (PercentOrFixed.percent 100).to_position 7 = 8 ∧
    (PercentOrFixed.percent 50).to_position 14 = 8 ∧
    (PercentOrFixed.percent 25).to_position 28 = 8 ∧
    (PercentOrFixed.percent 30).to_position 80 = 24 ∧
    (PercentOrFixed.percent 100).to_position 7 ≠
      (Int.ceil (((7 * 100 : Nat) : ℚ) / 100)).toNat := by
  refine ⟨?_, rfl, rfl, rfl, rfl, rfl, ?_⟩
  · simp only [PercentOrFixed.to_position]
    split <;> omega
  · have hc : Int.ceil (((7 * 100 : Nat) : ℚ) / 100) = 7 := by norm_num
    have h1 : (Int.ceil (((7 * 100 : Nat) : ℚ) / 100)).toNat = 7 := by
      rw [hc]
      rfl
    have h2 : (PercentOrFixed.percent 100).to_position 7 = 8 := rfl
    rw [h1, h2]
    omega

/-- C3: the failing input for the truncate budget accounting.  The
eight-leaf deepTruncTree truncated to six panes still has eight leaves,
so position_panes_in_space with max_panes six returns eight geometries
instead of six: truncate subtracts a child's direct-child count from
the remaining budget where the intent (exactly max_panes leaves) needs
the number of leaves the child consumed. -/
theorem claim_C3_truncate_exceeds_max :
    deepTruncTree.pane_count = 8 ∧
    ((deepTruncTree.truncate 6).1).pane_count = 8 ∧
    (deepTruncTree.position_panes_in_space space100 (some 6)).map List.length =
      .ok 8 ∧
    6 < 8 := ⟨rfl, rfl, rfl, by omega⟩

/-- C2 counterexample: split_space succeeds on overflowTree inside
space100, but at the inner node (which receives five columns) the
corrected child spans are 89 and 0, summing to 89 rather than 5: the
excess exceeded the last child's resolved span, so the subtraction
saturated. -/
theorem claim_C2_counterexample :
    (overflowTree.split_space space100 space100 |>.map
        (List.map (fun pg => (pg.2.x, pg.2.cols.as_usize)))) =
      .ok [(0, 89), (89, 0), (5, 95)] ∧
    (TiledPaneLayout.childGeoms spaceA nodeA space100 |>.map
        (List.map (fun g => (axisDimension .vertical g).as_usize))) = .ok [89, 0] ∧
    (axisDimension nodeA.children_split_direction spaceA).as_usize = 5 ∧
    89 + 0 ≠ 5 := ⟨rfl, rfl, rfl, by omega⟩

/-- modifyLast rewrites the last element and keeps the prefix. -/
theorem modifyLast_eq_append {α : Type} (f : α → α) (l : List α) (h : l ≠ []) :
    modifyLast f l = l.dropLast ++ [f (l.getLast h)] := by
  induction l with
  | nil => exact absurd rfl h
  | cons a rest ih =>
    cases rest with
    | nil => simp [modifyLast]
    | cons b rest' =>
      have hne : b :: rest' ≠ ([] : List α) := by simp
      simp only [modifyLast, List.dropLast_cons₂, List.getLast_cons hne, ih hne,
        List.cons_append]

/-- axisSum distributes over append. -/
theorem axisSum_append (dir : SplitDirection) (l1 l2 : List PaneGeom) :
    axisSum dir (l1 ++ l2) = axisSum dir l1 + axisSum dir l2 := by
  simp [axisSum]

/-- axisSum of a singleton. -/
theorem axisSum_singleton (dir : SplitDirection) (g : PaneGeom) :
    axisSum dir [g] = (axisDimension dir g).as_usize := by
  simp [axisSum]

/-- Splitting axisSum at the last element. -/
theorem axisSum_dropLast_getLast (dir : SplitDirection) (gs : List PaneGeom)
    (hne : gs ≠ []) :
    axisSum dir gs =
      axisSum dir gs.dropLast + (axisDimension dir (gs.getLast hne)).as_usize := by
  conv_lhs => rw [← List.dropLast_append_getLast hne]
  rw [axisSum_append, axisSum_singleton]

/-- The rounding-correction modification grows the span along the split
axis by the given amount. -/
theorem axis_increase (dir : SplitDirection) (g : PaneGeom) (k : Nat) :
    (axisDimension dir
      (match dir with
       | SplitDirection.vertical => { g with cols := g.cols.increase_inner k }
       | SplitDirection.horizontal => { g with rows := g.rows.increase_inner k })).as_usize =
      (axisDimension dir g).as_usize + k := by
  cases dir <;> rfl

/-- The rounding-correction modification shrinks the span along the
split axis by the given amount, saturating at zero. -/
theorem axis_decrease (dir : SplitDirection) (g : PaneGeom) (k : Nat) :
    (axisDimension dir
      (match dir with
       | SplitDirection.vertical => { g with cols := g.cols.decrease_inner k }
       | SplitDirection.horizontal => { g with rows := g.rows.decrease_inner k })).as_usize =
      (axisDimension dir g).as_usize - k := by
  cases dir <;> rfl

/-- After the rounding correction the spans sum exactly to the target
span, provided a shortfall (always correctable) or an excess no larger
than the last geometry's span. -/
theorem axisSum_correctGeoms (dir : SplitDirection) (span : Nat) (gs : List PaneGeom)
    (hne : gs ≠ [])
    (hbound : axisSum dir gs ≤ span + (axisDimension dir (gs.getLast hne)).as_usize) :
    axisSum dir (correctGeoms dir span gs) = span := by
  have hsplit := axisSum_dropLast_getLast dir gs hne
  simp only [correctGeoms]
  split_ifs with h1 h2
  · rw [modifyLast_eq_append _ _ hne, axisSum_append, axisSum_singleton, axis_increase]
    omega
  · rw [modifyLast_eq_append _ _ hne, axisSum_append, axisSum_singleton, axis_decrease]
    omega
  · omega

/-- C2 (amended): at a node whose raw sizing succeeds, the corrected
child spans along the split axis sum exactly to the node's own span
whenever the correction is achievable: always in the shortfall case,
and in the excess case whenever the excess does not exceed the last
child's resolved span; split_space applies exactly this correction at
every level. -/
theorem claim_C2_rounding_correction (s : PaneGeom) (t : TiledPaneLayout) (total : PaneGeom)
    (raw : List PaneGeom)
    (h : TiledPaneLayout.rawChildGeoms s t total = .ok raw) (hne : raw ≠ [])
    (hbound : axisSum t.children_split_direction raw ≤
      (axisDimension t.children_split_direction s).as_usize +
        (axisDimension t.children_split_direction (raw.getLast hne)).as_usize) :
    TiledPaneLayout.childGeoms s t total =
      .ok (correctGeoms t.children_split_direction
        (axisDimension t.children_split_direction s).as_usize raw) ∧
    axisSum t.children_split_direction
        (correctGeoms t.children_split_direction
          (axisDimension t.children_split_direction s).as_usize raw) =
      (axisDimension t.children_split_direction s).as_usize := by
  refine ⟨?_, axisSum_correctGeoms _ _ _ hne hbound⟩
  unfold TiledPaneLayout.childGeoms
  rw [h]
  rfl

/-- Witness for C2 at a concrete node: two Fixed(50) children inside
the 100-column space, whose corrected spans sum to the full span. -/
theorem claim_C2_rounding_correction_witness :
    ∃ raw, raw ≠ ([] : List PaneGeom) ∧
      TiledPaneLayout.rawChildGeoms space100 twoFixed space100 = .ok raw ∧
      axisSum twoFixed.children_split_direction
          (correctGeoms twoFixed.children_split_direction
            (axisDimension twoFixed.children_split_direction space100).as_usize raw) =
        (axisDimension twoFixed.children_split_direction space100).as_usize := by
  refine ⟨[⟨0, 0, ⟨.percent ⟨100, 1⟩, 50⟩, ⟨.fixed 50, 50⟩, false⟩,
           ⟨50, 0, ⟨.percent ⟨100, 1⟩, 50⟩, ⟨.fixed 50, 50⟩, false⟩], by simp, rfl, ?_⟩
  exact (claim_C2_rounding_correction space100 twoFixed space100 _ rfl (by simp)
    (by decide)).2

/-- Successful repeated insertion at a fixed index equals splicing the
reversed nodes there. -/
theorem insertAllAt_ok (rns : List TiledPaneLayout) :
    ∀ (cs : List TiledPaneLayout) (i : Nat) (res : List TiledPaneLayout),
      insertAllAt cs i rns = .ok res → res = cs.take i ++ rns.reverse ++ cs.drop i := by
  induction rns with
  | nil =>
    intro cs i res h
    simp only [insertAllAt] at h
    cases h
    simp
  | cons r rrest ih =>
    intro cs i res h
    simp only [insertAllAt, insertAt] at h
    by_cases hi : i ≤ cs.length
    · rw [if_pos hi] at h
      have h' : insertAllAt (cs.take i ++ r :: cs.drop i) i rrest = .ok res := h
      have hres := ih (cs.take i ++ r :: cs.drop i) i res h'
      have hlen : (cs.take i).length = i := by
        simp [List.length_take]
        omega
      rw [List.take_left' hlen, List.drop_left' hlen] at hres
      rw [hres]
      simp
    · rw [if_neg hi] at h
      have h' : (Except.error "insertion index out of bounds" :
          Except String (List TiledPaneLayout)) = .ok res := h
      exact Except.noConfusion h'

/-- A children list with no markers consists of children with no
markers. -/
theorem blockCountList_eq_zero {cs : List TiledPaneLayout}
    (h : TiledPaneLayout.blockCountList cs = 0) :
    ∀ c ∈ cs, c.children_block_count = 0 := by
  induction cs with
  | nil => intro c hc; cases hc
  | cons a rest ih =>
    simp only [TiledPaneLayout.blockCountList] at h
    intro c hc
    cases hc with
    | head => omega
    | tail _ h2 => exact ih (by omega) _ h2

/-- The children loop of insert_children_nodes over markerless children
changes nothing and reports false. -/
theorem insertNodesGo_no_marker (ns : List TiledPaneLayout) :
    ∀ cs : List TiledPaneLayout,
      (∀ c ∈ cs, c.children_block_count = 0 →
        c.insert_children_nodes ns = .ok (false, c, ns)) →
      TiledPaneLayout.blockCountList cs = 0 →
      TiledPaneLayout.insertNodesGo cs ns = .ok (false, cs, ns) := by
  intro cs
  induction cs with
  | nil => intro _ _; rfl
  | cons c rest ihl =>
    intro hih hz
    have hz' : c.children_block_count = 0 ∧ TiledPaneLayout.blockCountList rest = 0 := by
      simp only [TiledPaneLayout.blockCountList] at hz
      omega
    have hc := hih c (by simp) hz'.1
    have hrest := ihl (fun c' hc' h0 => hih c' (by simp [hc']) h0) hz'.2
    simp only [TiledPaneLayout.insertNodesGo, hc]
    show (do
        let rr ← TiledPaneLayout.insertNodesGo rest ns
        Except.ok (rr.1, c :: rr.2.1, rr.2.2)) =
      Except.ok (false, c :: rest, ns)
    rw [hrest]
    rfl

/-- insert_children_nodes on a tree without any marker returns false
and changes nothing: not the tree, not the node list. -/
theorem insert_nodes_no_marker (t : TiledPaneLayout) :
    ∀ ns : List TiledPaneLayout, t.children_block_count = 0 →
      t.insert_children_nodes ns = .ok (false, t, ns) := by
  induction t using TiledPaneLayout.ind_on with
  | h d n cs s r b f e st ih =>
    intro ns hcount
    simp only [TiledPaneLayout.children_block_count] at hcount
    have he : e = none := by
      cases e
      · rfl
      · simp at hcount
    subst he
    have hlist : TiledPaneLayout.blockCountList cs = 0 := by simpa using hcount
    have hgo := insertNodesGo_no_marker ns cs (fun c hc => ih c hc ns) hlist
    simp only [TiledPaneLayout.insert_children_nodes, hgo]
    rfl

/-- The children loop of insert_children_nodes, when some child
contains a marker and the loop succeeds, reports true, splices into the
first marked child and drains the node list. -/
theorem insertNodesGo_marker (ns : List TiledPaneLayout) :
    ∀ cs : List TiledPaneLayout,
      (∀ c ∈ cs,
        (c.children_block_count = 0 → c.insert_children_nodes ns = .ok (false, c, ns)) ∧
        (∀ res, 0 < c.children_block_count → c.insert_children_nodes ns = .ok res →
          res = (true, spliceFirstMarker c ns, []))) →
      0 < TiledPaneLayout.blockCountList cs →
      ∀ r, TiledPaneLayout.insertNodesGo cs ns = .ok r →
        r = (true, spliceFirstMarkerList cs ns, []) := by
  intro cs
  induction cs with
  | nil =>
    intro _ hpos
    simp [TiledPaneLayout.blockCountList] at hpos
  | cons c rest ihl =>
    intro hih hpos r hr
    by_cases hc : 0 < c.children_block_count
    · simp only [TiledPaneLayout.insertNodesGo] at hr
      cases hcins : c.insert_children_nodes ns with
      | error m =>
        rw [hcins] at hr
        exact Except.noConfusion hr
      | ok rc =>
        rw [hcins] at hr
        have hrc := (hih c (by simp)).2 rc hc hcins
        subst hrc
        have hr' : (Except.ok
            (true, spliceFirstMarker c ns :: rest, ([] : List TiledPaneLayout)) :
              Except String (Bool × List TiledPaneLayout × List TiledPaneLayout)) =
            .ok r := hr
        cases hr'
        simp only [spliceFirstMarkerList, if_pos hc]
    · have hc0 : c.children_block_count = 0 := by omega
      have hcid := (hih c (by simp)).1 hc0
      simp only [TiledPaneLayout.insertNodesGo, hcid] at hr
      have hr2 : (do
          let rr ← TiledPaneLayout.insertNodesGo rest ns
          Except.ok (rr.1, c :: rr.2.1, rr.2.2)) = Except.ok r := hr
      have hrest : 0 < TiledPaneLayout.blockCountList rest := by
        simp only [TiledPaneLayout.blockCountList] at hpos
        omega
      cases hgor : TiledPaneLayout.insertNodesGo rest ns with
      | error m =>
        rw [hgor] at hr2
        exact Except.noConfusion hr2
      | ok rr =>
        rw [hgor] at hr2
        have hr3 : (Except.ok (rr.1, c :: rr.2.1, rr.2.2) :
            Except String (Bool × List TiledPaneLayout × List TiledPaneLayout)) = .ok r := hr2
        cases hr3
        have := ihl (fun c' hc' => hih c' (by simp [hc'])) hrest rr hgor
        rw [this]
        simp only [spliceFirstMarkerList, if_neg hc]

/-- insert_children_nodes on a tree containing a marker, when it
succeeds, reports true, splices the nodes at the first marker in
depth-first pre-order, and drains the node list. -/
theorem insert_nodes_marker (t : TiledPaneLayout) :
    ∀ (ns : List TiledPaneLayout) (res : Bool × TiledPaneLayout × List TiledPaneLayout),
      0 < t.children_block_count → t.insert_children_nodes ns = .ok res →
      res = (true, spliceFirstMarker t ns, []) := by
  induction t using TiledPaneLayout.ind_on with
  | h d n cs s r b f e st ih =>
    intro ns res hcount hok
    cases e with
    | some i =>
      simp only [TiledPaneLayout.insert_children_nodes] at hok
      cases hall : insertAllAt cs i ns.reverse with
      | error msg =>
        rw [hall] at hok
        exact Except.noConfusion hok
      | ok cs' =>
        rw [hall] at hok
        have hok' : (Except.ok (true, TiledPaneLayout.mk d n cs' s r b f none st, []) :
            Except String (Bool × TiledPaneLayout × List TiledPaneLayout)) = .ok res := hok
        cases hok'
        have hs := insertAllAt_ok ns.reverse cs i cs' hall
        rw [List.reverse_reverse] at hs
        simp only [spliceFirstMarker, hs]
    | none =>
      simp only [TiledPaneLayout.children_block_count] at hcount
      have hlist : 0 < TiledPaneLayout.blockCountList cs := by simpa using hcount
      simp only [TiledPaneLayout.insert_children_nodes] at hok
      cases hgo : TiledPaneLayout.insertNodesGo cs ns with
      | error msg =>
        rw [hgo] at hok
        exact Except.noConfusion hok
      | ok rg =>
        rw [hgo] at hok
        have hrmain := insertNodesGo_marker ns cs
          (fun c hc => ⟨fun h0 => insert_nodes_no_marker c ns h0,
            fun res' hpos' hok'' => ih c hc ns res' hpos' hok''⟩)
          hlist rg hgo
        subst hrmain
        have hok' : (Except.ok
            (true, TiledPaneLayout.mk d n (spliceFirstMarkerList cs ns) s r b f none st,
              ([] : List TiledPaneLayout)) :
            Except String (Bool × TiledPaneLayout × List TiledPaneLayout)) = .ok res := hok
        cases hok'
        simp only [spliceFirstMarker]

/-- C10: on a tree with no external_children_index marker anywhere,
insert_children_nodes returns Ok(false) and leaves both the tree and
the supplied node list unchanged; when a marker is present and the call
succeeds, it reports true, the supplied nodes are spliced at the first
marker in depth-first pre-order (the marker being cleared), and the
node list is drained to empty. -/
theorem claim_C10_insert_children_nodes :
    (∀ (t : TiledPaneLayout) (ns : List TiledPaneLayout),
      t.children_block_count = 0 → t.insert_children_nodes ns = .ok (false, t, ns)) ∧
    (∀ (t : TiledPaneLayout) (ns : List TiledPaneLayout)
        (res : Bool × TiledPaneLayout × List TiledPaneLayout),
      0 < t.children_block_count → t.insert_children_nodes ns = .ok res →
      res = (true, spliceFirstMarker t ns, [])) :=
  ⟨insert_nodes_no_marker, insert_nodes_marker⟩

/-- Witness for C10: a markerless leaf is left unchanged, and markerTree
(marker at index one) splices two nodes between its children x and y. -/
theorem claim_C10_insert_children_nodes_witness :
    leafT.insert_children_nodes [leafT] = .ok (false, leafT, [leafT]) ∧
    ((true,
      TiledPaneLayout.mk .vertical none
        [leafNamed "x" none, leafNamed "n1" none, leafNamed "n2" none, leafNamed "y" none]
        none none false none none false,
      ([] : List TiledPaneLayout)) :
        Bool × TiledPaneLayout × List TiledPaneLayout) =
      (true, spliceFirstMarker markerTree [leafNamed "n1" none, leafNamed "n2" none], []) :=
  ⟨claim_C10_insert_children_nodes.1 leafT [leafT] rfl,
   claim_C10_insert_children_nodes.2 markerTree [leafNamed "n1" none, leafNamed "n2" none]
     _ (by decide) rfl⟩

/-- A leaf enumerates as itself. -/
theorem leafNodes_leaf {t : TiledPaneLayout} (h : t.children = []) : leafNodes t = [t] := by
  cases t with
  | mk d n cs s r b f e st =>
    simp only [TiledPaneLayout.children] at h
    subst h
    rfl

/-- An internal node enumerates its children's leaves. -/
theorem leafNodes_node {t : TiledPaneLayout} (h : t.children ≠ []) :
    leafNodes t = leafNodesList t.children := by
  cases t with
  | mk d n cs s r b f e st =>
    simp only [TiledPaneLayout.children] at h ⊢
    simp [leafNodes, List.isEmpty_iff, h]

/-- leafNodesList distributes over cons. -/
theorem leafNodesList_cons (c : TiledPaneLayout) (rest : List TiledPaneLayout) :
    leafNodesList (c :: rest) = leafNodes c ++ leafNodesList rest := rfl

/-- Every tree has at least one leaf. -/
theorem leafNodes_ne_nil (t : TiledPaneLayout) : leafNodes t ≠ [] := by
  induction t using TiledPaneLayout.ind_on with
  | h d n cs s r b f e st ih =>
    cases cs with
    | nil => simp [leafNodes]
    | cons c rest =>
      have hc := ih c (by simp)
      simp only [leafNodes, List.isEmpty_cons, leafNodesList_cons]
      intro hcontra
      exact hc (List.append_eq_nil.mp (by simpa using hcontra)).1

/-- extract_run_instructions over a children list is the run field of
the leaves, given that this holds of each child. -/
theorem extractRunList_eq (cs : List TiledPaneLayout) :
    (∀ c ∈ cs, c.extract_run_instructions = (leafNodes c).map TiledPaneLayout.run) →
    TiledPaneLayout.extractRunList cs = (leafNodesList cs).map TiledPaneLayout.run := by
  induction cs with
  | nil => intro _; rfl
  | cons c rest ih =>
    intro h
    simp only [TiledPaneLayout.extractRunList, leafNodesList_cons, List.map_append]
    rw [h c (by simp), ih (fun c' hc' => h c' (by simp [hc']))]

/-- extract_run_instructions lists exactly the run fields of the leaves
in depth-first pre-order. -/
theorem extract_eq_leafNodes_map (t : TiledPaneLayout) :
    t.extract_run_instructions = (leafNodes t).map TiledPaneLayout.run := by
  induction t using TiledPaneLayout.ind_on with
  | h d n cs s r b f e st ih =>
    cases cs with
    | nil => rfl
    | cons c rest =>
      have hlist := extractRunList_eq (c :: rest) ih
      simp only [TiledPaneLayout.extract_run_instructions, List.isEmpty_cons,
        Bool.false_eq_true, if_neg, List.nil_append]
      simpa [leafNodes] using hlist

/-- Elimination for a successful split_space call: the per-node sizing
succeeded, the recursion loop succeeded, and the result is either the
node itself (no children) or the loop's output. -/
theorem split_space_ok_elim {s total : PaneGeom} {t : TiledPaneLayout}
    {l : List (TiledPaneLayout × PaneGeom)}
    (h : TiledPaneLayout.split_space s t total = .ok l) :
    ∃ gs ps, TiledPaneLayout.childGeoms s t total = .ok gs ∧
      TiledPaneLayout.splitSpaceGo t.children gs total = .ok ps ∧
      ((ps = [] ∧ l = [(t, s)]) ∨ (ps ≠ [] ∧ l = ps)) := by
  cases t with
  | mk d n cs ssz r b f e st =>
    simp only [TiledPaneLayout.split_space] at h
    cases hgs : TiledPaneLayout.childGeoms s (.mk d n cs ssz r b f e st) total with
    | error msg =>
      rw [hgs] at h
      exact Except.noConfusion h
    | ok gs =>
      rw [hgs] at h
      have h1 : (do
          let pane_positions ← TiledPaneLayout.splitSpaceGo cs gs total
          if pane_positions.isEmpty then
            Except.ok [(TiledPaneLayout.mk d n cs ssz r b f e st, s)]
          else Except.ok pane_positions) = Except.ok l := h
      cases hps : TiledPaneLayout.splitSpaceGo cs gs total with
      | error msg =>
        rw [hps] at h1
        have h2 : (Except.error msg :
            Except String (List (TiledPaneLayout × PaneGeom))) = .ok l := h1
        exact Except.noConfusion h2
      | ok ps =>
        rw [hps] at h1
        refine ⟨gs, ps, rfl, hps, ?_⟩
        have h' : (if ps.isEmpty then
            Except.ok [(TiledPaneLayout.mk d n cs ssz r b f e st, s)]
          else Except.ok ps) = Except.ok l := h1
        by_cases hemp : ps.isEmpty
        · rw [if_pos hemp] at h'
          cases h'
          exact Or.inl ⟨List.isEmpty_iff.mp hemp, rfl⟩
        · rw [if_neg hemp] at h'
          cases h'
          exact Or.inr ⟨fun hc => hemp (by simp [hc]), rfl⟩

/-- The recursion loop of split_space enumerates the leaves of the
children it processes, given the same property for each recursive
call. -/
theorem splitSpaceGo_map_fst (total : PaneGeom) :
    ∀ parts : List TiledPaneLayout,
      (∀ c ∈ parts, ∀ (s' : PaneGeom) (l' : List (TiledPaneLayout × PaneGeom)),
        TiledPaneLayout.split_space s' c total = .ok l' → l'.map Prod.fst = leafNodes c) →
      ∀ (geoms : List PaneGeom) (l : List (TiledPaneLayout × PaneGeom)),
        TiledPaneLayout.splitSpaceGo parts geoms total = .ok l →
        l.map Prod.fst = leafNodesList parts := by
  intro parts
  induction parts with
  | nil =>
    intro _ geoms l h
    have h' : (Except.ok [] : Except String (List (TiledPaneLayout × PaneGeom))) = .ok l := h
    cases h'
    rfl
  | cons part rest ihp =>
    intro hih geoms l h
    cases geoms with
    | nil =>
      have h' : (Except.error "missing geometry for pane" :
          Except String (List (TiledPaneLayout × PaneGeom))) = .ok l := h
      exact Except.noConfusion h'
    | cons geom grest =>
      simp only [TiledPaneLayout.splitSpaceGo] at h
      by_cases hleaf : part.children.isEmpty
      · rw [if_pos hleaf] at h
        cases hrest : TiledPaneLayout.splitSpaceGo rest grest total with
        | error msg =>
          rw [hrest] at h
          exact Except.noConfusion h
        | ok lrest =>
          rw [hrest] at h
          have h' : (Except.ok ([(part, geom)] ++ lrest) :
              Except String (List (TiledPaneLayout × PaneGeom))) = .ok l := h
          cases h'
          rw [List.map_append, leafNodesList_cons,
            ihp (fun c hc => hih c (by simp [hc])) grest lrest hrest,
            leafNodes_leaf (List.isEmpty_iff.mp hleaf)]
          rfl
      · rw [if_neg hleaf] at h
        cases hsp : TiledPaneLayout.split_space geom part total with
        | error msg =>
          rw [hsp] at h
          exact Except.noConfusion h
        | ok lpart =>
          rw [hsp] at h
          cases hrest : TiledPaneLayout.splitSpaceGo rest grest total with
          | error msg =>
            rw [hrest] at h
            exact Except.noConfusion h
          | ok lrest =>
            rw [hrest] at h
            have h' : (Except.ok (lpart ++ lrest) :
                Except String (List (TiledPaneLayout × PaneGeom))) = .ok l := h
            cases h'
            rw [List.map_append, leafNodesList_cons,
              hih part (by simp) geom lpart hsp,
              ihp (fun c hc => hih c (by simp [hc])) grest lrest hrest]

/-- A successful split_space enumerates exactly the leaves of the tree,
in depth-first pre-order, as the first components of its result. -/
theorem split_space_map_fst (total : PaneGeom) (t : TiledPaneLayout) :
    ∀ (s : PaneGeom) (l : List (TiledPaneLayout × PaneGeom)),
      TiledPaneLayout.split_space s t total = .ok l → l.map Prod.fst = leafNodes t := by
  induction t using TiledPaneLayout.ind_on with
  | h d n cs ssz r b f e st ih =>
    intro s l h
    obtain ⟨gs, ps, hgs, hps, hcase⟩ := split_space_ok_elim h
    simp only [TiledPaneLayout.children] at hps
    cases cs with
    | nil =>
      rcases hcase with ⟨hemp, hl⟩ | ⟨hne, hl⟩
      · subst hl
        simp [leafNodes]
      · exfalso
        have h' : (Except.ok [] : Except String (List (TiledPaneLayout × PaneGeom))) =
            .ok ps := hps
        cases h'
        exact hne rfl
    | cons c rest =>
      have hmap := splitSpaceGo_map_fst total (c :: rest)
        (fun c' hc' => ih c' hc') gs ps hps
      rcases hcase with ⟨hemp, hl⟩ | ⟨hne, hl⟩
      · exfalso
        subst hemp
        have : leafNodesList (c :: rest) = [] := hmap.symm
        rw [leafNodesList_cons] at this
        exact leafNodes_ne_nil c (List.append_eq_nil.mp this).1
      · subst hl
        rw [hmap]
        simp [leafNodes]

/-- A successful position_panes_in_space without max_panes returns the
split_space result unchanged. -/
theorem position_none_ok {t : TiledPaneLayout} {s : PaneGeom}
    {l : List (TiledPaneLayout × PaneGeom)}
    (h : t.position_panes_in_space s none = .ok l) :
    TiledPaneLayout.split_space s t s = .ok l := by
  simp only [TiledPaneLayout.position_panes_in_space] at h
  cases hsp : TiledPaneLayout.split_space s t s with
  | error msg =>
    rw [hsp] at h
    exact Except.noConfusion h
  | ok l0 =>
    rw [hsp] at h
    have h1 : (if l0.any (fun pg => ! pg.2.is_at_least_minimum_size) then
        (Except.error "No room on screen for this layout!" :
          Except String (List (TiledPaneLayout × PaneGeom)))
      else Except.ok l0) = Except.ok l := h
    by_cases hany : l0.any (fun pg => ! pg.2.is_at_least_minimum_size)
    · rw [if_pos hany] at h1
      exact Except.noConfusion h1
    · rw [if_neg hany] at h1
      cases h1
      rfl

/-- C1: a successful split_space emits one pair per leaf, in the same
depth-first pre-order, child-list order that extract_run_instructions
traverses, so the two lists have equal length and can be paired
positionally; position_panes_in_space without max_panes returns that
same list. -/
theorem claim_C1_ordering (s total : PaneGeom) (t : TiledPaneLayout)
    (l : List (TiledPaneLayout × PaneGeom))
    (h : TiledPaneLayout.split_space s t total = .ok l) :
    l.map Prod.fst = leafNodes t ∧
    t.extract_run_instructions = (leafNodes t).map TiledPaneLayout.run ∧
    t.extract_run_instructions = l.map (fun p => p.1.run) ∧
    t.extract_run_instructions.length = l.length ∧
    (∀ l₂, t.position_panes_in_space s none = .ok l₂ →
      l₂.map Prod.fst = leafNodes t) := by
  have h1 := split_space_map_fst total t s l h
  have h2 := extract_eq_leafNodes_map t
  refine ⟨h1, h2, ?_, ?_, ?_⟩
  · rw [h2, ← h1, List.map_map]
    rfl
  · rw [h2, ← h1, List.length_map, List.length_map]
  · intro l₂ h₂
    exact split_space_map_fst s t s l₂ (position_none_ok h₂)

/-- Witness for C1: the two-pane fixed split pairs leaves with run
instructions positionally. -/
theorem claim_C1_ordering_witness :
    TiledPaneLayout.split_space space100 twoFixed space100 =
      .ok [(leafSized (.fixed 50), ⟨0, 0, ⟨.percent ⟨100, 1⟩, 50⟩, ⟨.fixed 50, 50⟩, false⟩),
           (leafSized (.fixed 50), ⟨50, 0, ⟨.percent ⟨100, 1⟩, 50⟩, ⟨.fixed 50, 50⟩, false⟩)] ∧
    twoFixed.extract_run_instructions.length = 2 := by
  refine ⟨rfl, ?_⟩
  have h := claim_C1_ordering space100 space100 twoFixed _ rfl
  rw [h.2.2.2.1]
  rfl

/-- The index-selection loop, once it holds a candidate index below the
running counter, returns an index below the counter plus the number of
remaining children. -/
theorem pickDeepestAux_some_lt :
    ∀ (cs : List TiledPaneLayout) (i dp j : Nat), j < i →
      ∃ j', TiledPaneLayout.pickDeepestAux cs i dp (some j) = some j' ∧
        j' < i + cs.length := by
  intro cs
  induction cs with
  | nil =>
    intro i dp j hj
    exact ⟨j, rfl, by simpa using hj⟩
  | cons c rest ih =>
    intro i dp j hj
    simp only [TiledPaneLayout.pickDeepestAux]
    by_cases hge : c.deepest_depth ≥ dp
    · rw [if_pos hge]
      obtain ⟨j', h1, h2⟩ := ih (i + 1) c.deepest_depth i (by omega)
      refine ⟨j', h1, ?_⟩
      simp only [List.length_cons]
      omega
    · rw [if_neg hge]
      obtain ⟨j', h1, h2⟩ := ih (i + 1) dp j (by omega)
      refine ⟨j', h1, ?_⟩
      simp only [List.length_cons]
      omega

/-- A non-empty children list always yields a chosen index, in
range. -/
theorem pickDeepest_cons (c : TiledPaneLayout) (rest : List TiledPaneLayout) :
    ∃ k, TiledPaneLayout.pickDeepest (c :: rest) = some k ∧ k < (c :: rest).length := by
  have hstep : TiledPaneLayout.pickDeepest (c :: rest) =
      TiledPaneLayout.pickDeepestAux rest 1 c.deepest_depth (some 0) := by
    simp only [TiledPaneLayout.pickDeepest, TiledPaneLayout.pickDeepestAux,
      ge_iff_le, Nat.zero_le, if_pos]
  obtain ⟨j', h1, h2⟩ := pickDeepestAux_some_lt rest 1 c.deepest_depth 0 (by omega)
  refine ⟨j', hstep.trans h1, ?_⟩
  simp only [List.length_cons]
  omega

/-- The in-place update at a valid index is List.set with the recursive
call. -/
theorem focusDeepestAt_set :
    ∀ (cs : List TiledPaneLayout) (k : Nat) (c : TiledPaneLayout), cs.get? k = some c →
      TiledPaneLayout.focusDeepestAt cs k = cs.set k c.focus_deepest_pane := by
  intro cs
  induction cs with
  | nil => intro k c h; exact Option.noConfusion h
  | cons a rest ih =>
    intro k c h
    cases k with
    | zero =>
      have : a = c := by simpa using h
      subst this
      rfl
    | succ k' =>
      simp only [TiledPaneLayout.focusDeepestAt, List.set]
      rw [ih k' c (by simpa using h)]

/-- C4 helper: focus_deepest_pane marks exactly one childless node,
leaving everything else in the tree unchanged. -/
theorem fdp_marks_one (t : TiledPaneLayout) : MarksOneLeaf t t.focus_deepest_pane := by
  induction t using TiledPaneLayout.ind_on with
  | h d n cs s r b f e st ih =>
    cases cs with
    | nil => exact MarksOneLeaf.leaf d n s r b f e st
    | cons c rest =>
      obtain ⟨k, hpick, hlt⟩ := pickDeepest_cons c rest
      obtain ⟨c0, hc0⟩ : ∃ c0, (c :: rest).get? k = some c0 :=
        ⟨_, List.get?_eq_get hlt⟩
      have hval : TiledPaneLayout.focus_deepest_pane (.mk d n (c :: rest) s r b f e st) =
          .mk d n ((c :: rest).set k c0.focus_deepest_pane) s r b f e st := by
        simp only [TiledPaneLayout.focus_deepest_pane, hpick,
          focusDeepestAt_set (c :: rest) k c0 hc0]
      rw [hval]
      exact MarksOneLeaf.child d n s r b f e st (c :: rest) k c0 _ hc0
        (ih c0 (List.get?_mem hc0))

/-- leafNodesList distributes over append. -/
theorem leafNodesList_append (l1 l2 : List TiledPaneLayout) :
    leafNodesList (l1 ++ l2) = leafNodesList l1 ++ leafNodesList l2 := by
  induction l1 with
  | nil => rfl
  | cons a rest ih => simp [leafNodesList_cons, ih]

/-- Elimination for an unfocused node: its own flag is unset and so is
every child subtree. -/
theorem has_focused_mk_false {d : SplitDirection} {n : Option String}
    {cs : List TiledPaneLayout} {s : Option SplitSize} {r : Option Run} {b : Bool}
    {f : Option Bool} {e : Option Nat} {st : Bool}
    (h : TiledPaneLayout.has_focused_node (.mk d n cs s r b f e st) = false) :
    f.getD false = false ∧ TiledPaneLayout.hasFocusedList cs = false := by
  simp only [TiledPaneLayout.has_focused_node] at h
  by_cases hg : f.getD false
  · rw [if_pos hg] at h
    exact absurd h (by simp)
  · rw [if_neg hg] at h
    exact ⟨by simpa using hg, h⟩

/-- An unfocused children list consists of unfocused subtrees. -/
theorem hasFocusedList_false {cs : List TiledPaneLayout}
    (h : TiledPaneLayout.hasFocusedList cs = false) :
    ∀ c ∈ cs, c.has_focused_node = false := by
  induction cs with
  | nil => intro c hc; cases hc
  | cons a rest ih =>
    simp only [TiledPaneLayout.hasFocusedList] at h
    by_cases ha : a.has_focused_node
    · rw [if_pos ha] at h
      exact absurd h (by simp)
    · rw [if_neg ha] at h
      intro c hc
      cases hc with
      | head => simpa using ha
      | tail _ h2 => exact ih h _ h2

/-- A list of unfocused subtrees is an unfocused children list. -/
theorem hasFocusedList_false_of_all {cs : List TiledPaneLayout}
    (h : ∀ c ∈ cs, c.has_focused_node = false) :
    TiledPaneLayout.hasFocusedList cs = false := by
  induction cs with
  | nil => rfl
  | cons a rest ih =>
    simp only [TiledPaneLayout.hasFocusedList, h a (by simp)]
    exact ih fun c hc => h c (by simp [hc])

/-- Children lists with no focused leaves have none in their leaf
enumeration. -/
theorem countP_leafNodesList_zero (p : TiledPaneLayout → Bool) :
    ∀ cs : List TiledPaneLayout, (∀ c ∈ cs, (leafNodes c).countP p = 0) →
      (leafNodesList cs).countP p = 0 := by
  intro cs
  induction cs with
  | nil => intro _; rfl
  | cons a rest ih =>
    intro h
    rw [leafNodesList_cons, List.countP_append, h a (by simp),
      ih fun c hc => h c (by simp [hc])]

/-- An unfocused tree has no focused leaves. -/
theorem flc_eq_zero (t : TiledPaneLayout) :
    t.has_focused_node = false → focusedLeafCount t = 0 := by
  induction t using TiledPaneLayout.ind_on with
  | h d n cs s r b f e st ih =>
    intro hf
    obtain ⟨hfo, hlist⟩ := has_focused_mk_false hf
    have hall := hasFocusedList_false hlist
    cases cs with
    | nil =>
      have hne : (f == some true) = false := by
        cases f with
        | none => rfl
        | some bv =>
          cases bv with
          | false => rfl
          | true => simp at hfo
      simp [focusedLeafCount, leafNodes, List.countP_cons, hne,
        TiledPaneLayout.focus]
    | cons c rest =>
      have hz : ∀ c' ∈ c :: rest, (leafNodes c').countP
          (fun c'' => c''.focus == some true) = 0 := by
        intro c' hc'
        have := ih c' hc' (hall c' hc')
        simpa [focusedLeafCount] using this
      simp only [focusedLeafCount]
      rw [leafNodes_node (by simp [TiledPaneLayout.children])]
      exact countP_leafNodesList_zero _ (c :: rest) hz

/-- A tree with a focused leaf reports a focused node. -/
theorem hf_of_flc_pos (t : TiledPaneLayout) (h : 0 < focusedLeafCount t) :
    t.has_focused_node = true := by
  cases hhf : t.has_focused_node
  · rw [flc_eq_zero t hhf] at h
    omega
  · rfl

/-- Replacing one member of a children list with no focused leaves
leaves exactly the focused leaves of the replacement. -/
theorem countP_leafNodesList_set (p : TiledPaneLayout → Bool) :
    ∀ (cs : List TiledPaneLayout) (k : Nat) (c0 c' : TiledPaneLayout),
      cs.get? k = some c0 → (∀ c ∈ cs, (leafNodes c).countP p = 0) →
      (leafNodesList (cs.set k c')).countP p = (leafNodes c').countP p := by
  intro cs
  induction cs with
  | nil => intro k c0 c' h _; exact Option.noConfusion h
  | cons a rest ih =>
    intro k c0 c' h hall
    cases k with
    | zero =>
      simp only [List.set, leafNodesList_cons, List.countP_append]
      have h0 : (leafNodesList rest).countP p = 0 :=
        countP_leafNodesList_zero p rest fun c hc => hall c (by simp [hc])
      omega
    | succ k' =>
      simp only [List.set, leafNodesList_cons, List.countP_append]
      rw [ih k' c0 c' (by simpa using h) fun c hc => hall c (by simp [hc])]
      have h0 : (leafNodes a).countP p = 0 := hall a (by simp)
      omega

/-- C4 helper: focusing the deepest pane of an unfocused tree produces
exactly one focused leaf. -/
theorem flc_fdp (t : TiledPaneLayout) :
    t.has_focused_node = false → focusedLeafCount t.focus_deepest_pane = 1 := by
  induction t using TiledPaneLayout.ind_on with
  | h d n cs s r b f e st ih =>
    intro hf
    obtain ⟨hfo, hlist⟩ := has_focused_mk_false hf
    have hall := hasFocusedList_false hlist
    cases cs with
    | nil => rfl
    | cons c rest =>
      obtain ⟨k, hpick, hlt⟩ := pickDeepest_cons c rest
      obtain ⟨c0, hc0⟩ : ∃ c0, (c :: rest).get? k = some c0 :=
        ⟨_, List.get?_eq_get hlt⟩
      have hval : TiledPaneLayout.focus_deepest_pane (.mk d n (c :: rest) s r b f e st) =
          .mk d n ((c :: rest).set k c0.focus_deepest_pane) s r b f e st := by
        simp only [TiledPaneLayout.focus_deepest_pane, hpick,
          focusDeepestAt_set (c :: rest) k c0 hc0]
      rw [hval]
      have hzero : ∀ c' ∈ c :: rest, (leafNodes c').countP
          (fun c'' => c''.focus == some true) = 0 := by
        intro c' hc'
        have := flc_eq_zero c' (hall c' hc')
        simpa [focusedLeafCount] using this
      have hset_ne : (c :: rest).set k c0.focus_deepest_pane ≠ [] := by
        cases k <;> simp [List.set]
      simp only [focusedLeafCount]
      rw [leafNodes_node (by simp only [TiledPaneLayout.children]; exact hset_ne)]
      simp only [TiledPaneLayout.children]
      rw [countP_leafNodesList_set _ (c :: rest) k c0 _ hc0 hzero]
      have := ih c0 (List.get?_mem hc0) (hall c0 (List.get?_mem hc0))
      simpa [focusedLeafCount] using this

/-- An unfocused node has its focus flag effectively unset. -/
theorem focus_getD_false {c : TiledPaneLayout} (h : c.has_focused_node = false) :
    c.focus.getD false = false := by
  cases c with
  | mk d n cs s r b f e st => exact (has_focused_mk_false h).1

/-- Clearing the children of a node leaves only its own focus flag. -/
theorem withChildren_hf (c : TiledPaneLayout) :
    (c.withChildren []).has_focused_node = c.focus.getD false := by
  cases c with
  | mk d n cs s r b f e st =>
    simp only [TiledPaneLayout.withChildren, TiledPaneLayout.has_focused_node,
      TiledPaneLayout.hasFocusedList, TiledPaneLayout.focus]
    cases hg : f.getD false <;> simp [hg]

/-- The truncate budget loop preserves the absence of focus. -/
theorem truncateGo_no_focus :
    ∀ cs : List TiledPaneLayout,
      (∀ c ∈ cs, ∀ m, c.has_focused_node = false →
        ((c.truncate m).1).has_focused_node = false) →
      (∀ c ∈ cs, c.has_focused_node = false) →
      ∀ rem, TiledPaneLayout.hasFocusedList (TiledPaneLayout.truncateGo cs rem) = false := by
  intro cs
  induction cs with
  | nil => intro _ _ rem; rfl
  | cons c rest ih =>
    intro hih hall rem
    simp only [TiledPaneLayout.truncateGo]
    split
    · simp only [TiledPaneLayout.hasFocusedList,
        hih c (by simp) rem (hall c (by simp))]
      exact ih (fun c' hc' => hih c' (by simp [hc'])) (fun c' hc' => hall c' (by simp [hc'])) _
    · simp only [TiledPaneLayout.hasFocusedList, withChildren_hf,
        focus_getD_false (hall c (by simp))]
      exact ih (fun c' hc' => hih c' (by simp [hc'])) (fun c' hc' => hall c' (by simp [hc'])) _

/-- truncate preserves the absence of focus. -/
theorem truncate_no_focus (t : TiledPaneLayout) :
    ∀ m, t.has_focused_node = false → ((t.truncate m).1).has_focused_node = false := by
  induction t using TiledPaneLayout.ind_on with
  | h d n cs s r b f e st ih =>
    intro m hf
    obtain ⟨hfo, hlist⟩ := has_focused_mk_false hf
    have hall := hasFocusedList_false hlist
    simp only [TiledPaneLayout.truncate, TiledPaneLayout.has_focused_node, hfo,
      Bool.false_eq_true, if_false]
    split_ifs with h1 h2
    · rfl
    · apply hasFocusedList_false_of_all
      intro c hc
      obtain ⟨c0, hc0mem, rfl⟩ := List.mem_map.mp hc
      have hc0 : c0 ∈ cs := List.take_subset _ _ hc0mem
      rw [withChildren_hf]
      exact focus_getD_false (hall c0 hc0)
    · exact truncateGo_no_focus cs (fun c hc mm hcf => ih c hc mm hcf) hall _

/-- The splice target list of a non-empty children list is
non-empty. -/
theorem spliceFirstMarkerList_cons_ne (c : TiledPaneLayout) (rest ns : List TiledPaneLayout) :
    spliceFirstMarkerList (c :: rest) ns ≠ [] := by
  simp only [spliceFirstMarkerList]
  split <;> simp

/-- Splicing into the first marked child of an unfocused children list
leaves exactly the focused leaves of the spliced nodes. -/
theorem flc_spliceFirstMarkerList (ns : List TiledPaneLayout) :
    ∀ cs : List TiledPaneLayout,
      (∀ c ∈ cs, c.has_focused_node = false → 0 < c.children_block_count →
        (leafNodes (spliceFirstMarker c ns)).countP (fun c' => c'.focus == some true) =
          (leafNodesList ns).countP (fun c' => c'.focus == some true)) →
      (∀ c ∈ cs, c.has_focused_node = false) →
      0 < TiledPaneLayout.blockCountList cs →
      (leafNodesList (spliceFirstMarkerList cs ns)).countP
          (fun c' => c'.focus == some true) =
        (leafNodesList ns).countP (fun c' => c'.focus == some true) := by
  intro cs
  induction cs with
  | nil =>
    intro _ _ hpos
    simp [TiledPaneLayout.blockCountList] at hpos
  | cons c rest ih =>
    intro hih hall hpos
    have hzero : ∀ c' ∈ c :: rest, (leafNodes c').countP
        (fun c'' => c''.focus == some true) = 0 := by
      intro c' hc'
      have := flc_eq_zero c' (hall c' hc')
      simpa [focusedLeafCount] using this
    simp only [spliceFirstMarkerList]
    by_cases hc : c.children_block_count > 0
    · rw [if_pos hc, leafNodesList_cons, List.countP_append,
        hih c (by simp) (hall c (by simp)) hc,
        countP_leafNodesList_zero _ rest fun c' hc' => hzero c' (by simp [hc'])]
      omega
    · rw [if_neg hc, leafNodesList_cons, List.countP_append, hzero c (by simp)]
      have hrest : 0 < TiledPaneLayout.blockCountList rest := by
        simp only [TiledPaneLayout.blockCountList] at hpos
        omega
      rw [ih (fun c' hc' => hih c' (by simp [hc'])) (fun c' hc' => hall c' (by simp [hc']))
        hrest]
      omega

/-- Splicing nodes at the first marker of an unfocused tree leaves
exactly the focused leaves of the spliced nodes. -/
theorem flc_splice (ns : List TiledPaneLayout) (t : TiledPaneLayout) :
    t.has_focused_node = false → 0 < t.children_block_count →
    (leafNodes (spliceFirstMarker t ns)).countP (fun c => c.focus == some true) =
      (leafNodesList ns).countP (fun c => c.focus == some true) := by
  induction t using TiledPaneLayout.ind_on with
  | h d n cs s r b f e st ih =>
    intro hf hcount
    obtain ⟨hfo, hlist⟩ := has_focused_mk_false hf
    have hall := hasFocusedList_false hlist
    have hzero : ∀ c ∈ cs, (leafNodes c).countP
        (fun c' => c'.focus == some true) = 0 := by
      intro c hc
      have := flc_eq_zero c (hall c hc)
      simpa [focusedLeafCount] using this
    cases e with
    | some i =>
      simp only [spliceFirstMarker]
      by_cases hemp : (cs.take i ++ ns ++ cs.drop i) = []
      · obtain ⟨h1, h2⟩ := List.append_eq_nil.mp hemp
        obtain ⟨_, h3⟩ := List.append_eq_nil.mp h1
        rw [leafNodes_leaf (by simp [TiledPaneLayout.children, hemp])]
        have hne : (f == some true) = false := by
          cases f with
          | none => rfl
          | some bv =>
            cases bv with
            | false => rfl
            | true => simp at hfo
        simp [h3, List.countP_cons, hne, TiledPaneLayout.focus]
        rfl
      · rw [leafNodes_node (by simpa [TiledPaneLayout.children] using hemp)]
        simp only [TiledPaneLayout.children]
        rw [leafNodesList_append, leafNodesList_append, List.countP_append,
          List.countP_append,
          countP_leafNodesList_zero _ (cs.take i)
            (fun c hc => hzero c (List.take_subset _ _ hc)),
          countP_leafNodesList_zero _ (cs.drop i)
            (fun c hc => hzero c (List.drop_subset _ _ hc))]
        omega
    | none =>
      have hlistpos : 0 < TiledPaneLayout.blockCountList cs := by
        simpa [TiledPaneLayout.children_block_count] using hcount
      cases cs with
      | nil => simp [TiledPaneLayout.blockCountList] at hlistpos
      | cons c rest =>
        simp only [spliceFirstMarker]
        rw [leafNodes_node (by
          simpa [TiledPaneLayout.children] using spliceFirstMarkerList_cons_ne c rest ns)]
        simp only [TiledPaneLayout.children]
        exact flc_spliceFirstMarkerList ns (c :: rest)
          (fun c' hc' h1 h2 => ih c' hc' h1 h2) hall hlistpos

/-- The grown placeholder list carries exactly one focused leaf: the
last placeholder. -/
theorem flc_extra (k : Nat) (hk : 0 < k) :
    (leafNodesList (modifyLast (fun c => c.withFocus (some true))
        (List.replicate k TiledPaneLayout.default))).countP
      (fun c => c.focus == some true) = 1 := by
  have hne : List.replicate k TiledPaneLayout.default ≠ [] := by
    cases k with
    | zero => omega
    | succ k' => simp
  rw [modifyLast_eq_append _ _ hne, leafNodesList_append, List.countP_append]
  have h1 : (leafNodesList (List.replicate k TiledPaneLayout.default).dropLast).countP
      (fun c => c.focus == some true) = 0 := by
    apply countP_leafNodesList_zero
    intro c hc
    have hcmem : c ∈ List.replicate k TiledPaneLayout.default :=
      List.dropLast_subset _ hc
    rw [List.eq_of_mem_replicate hcmem]
    rfl
  have h3 : (List.replicate k TiledPaneLayout.default).getLast hne =
      TiledPaneLayout.default := List.eq_of_mem_replicate (List.getLast_mem hne)
  rw [h1, h3]
  rfl

/-- Elimination for a successful position_panes_in_space with
max_panes: the adjustment stage and the split both succeeded and the
result is the split result. -/
theorem position_some_elim {t : TiledPaneLayout} {s : PaneGeom} {m : Nat}
    {l : List (TiledPaneLayout × PaneGeom)}
    (h : t.position_panes_in_space s (some m) = .ok l) :
    ∃ t2, t.adjustForMaxPanes m = .ok t2 ∧
      TiledPaneLayout.split_space s t2 s = .ok l := by
  simp only [TiledPaneLayout.position_panes_in_space] at h
  cases hadj : t.adjustForMaxPanes m with
  | error msg =>
    rw [hadj] at h
    have h2 : (Except.error msg :
        Except String (List (TiledPaneLayout × PaneGeom))) = .ok l := h
    exact Except.noConfusion h2
  | ok t2 =>
    rw [hadj] at h
    have h2 : (do
        let layouts ← TiledPaneLayout.split_space s t2 s
        if layouts.any (fun pg => ! pg.2.is_at_least_minimum_size) then
          (Except.error "No room on screen for this layout!" :
            Except String (List (TiledPaneLayout × PaneGeom)))
        else Except.ok layouts) = Except.ok l := h
    cases hsp : TiledPaneLayout.split_space s t2 s with
    | error msg =>
      rw [hsp] at h2
      have h3 : (Except.error msg :
          Except String (List (TiledPaneLayout × PaneGeom))) = .ok l := h2
      exact Except.noConfusion h3
    | ok l0 =>
      rw [hsp] at h2
      have h3 : (if l0.any (fun pg => ! pg.2.is_at_least_minimum_size) then
          (Except.error "No room on screen for this layout!" :
            Except String (List (TiledPaneLayout × PaneGeom)))
        else Except.ok l0) = Except.ok l := h2
      by_cases hany : l0.any (fun pg => ! pg.2.is_at_least_minimum_size)
      · rw [if_pos hany] at h3
        exact Except.noConfusion h3
      · rw [if_neg hany] at h3
        cases h3
        exact ⟨t2, rfl, hsp⟩

/-- The adjustment stage of position_panes_in_space, applied to an
unfocused tree, leaves exactly one focused leaf. -/
theorem adjust_focused_count {t : TiledPaneLayout} {m : Nat} {t2 : TiledPaneLayout}
    (hf : t.has_focused_node = false) (h : t.adjustForMaxPanes m = .ok t2) :
    focusedLeafCount t2 = 1 := by
  simp only [TiledPaneLayout.adjustForMaxPanes, hf, Bool.not_false, if_true] at h
  by_cases hgrow : m > t.pane_count
  · rw [if_pos hgrow] at h
    cases hins : t.insert_children_nodes
        (modifyLast (fun last_child => last_child.withFocus (some true))
          (List.replicate (m - t.pane_count + 1) TiledPaneLayout.default)) with
    | error msg =>
      rw [hins] at h
      have h2 : (Except.error msg : Except String TiledPaneLayout) = .ok t2 := h
      exact Except.noConfusion h2
    | ok ins =>
      rw [hins] at h
      have h2 : (Except.ok (if ! ins.2.1.has_focused_node then
          ins.2.1.focus_deepest_pane else ins.2.1) :
          Except String TiledPaneLayout) = .ok t2 := h
      cases h2
      cases hcnt : t.children_block_count with
      | zero =>
        have hid := insert_nodes_no_marker t
          (modifyLast (fun last_child => last_child.withFocus (some true))
            (List.replicate (m - t.pane_count + 1) TiledPaneLayout.default)) hcnt
        have hins' : ins = (false, t,
            modifyLast (fun last_child => last_child.withFocus (some true))
              (List.replicate (m - t.pane_count + 1) TiledPaneLayout.default)) :=
          Except.ok.inj (hins.symm.trans hid)
        subst hins'
        simp only [hf, Bool.not_false, if_true]
        exact flc_fdp t hf
      | succ k =>
        have hsp := insert_nodes_marker t _ ins (by omega) hins
        subst hsp
        have hflc : focusedLeafCount (spliceFirstMarker t
            (modifyLast (fun last_child => last_child.withFocus (some true))
              (List.replicate (m - t.pane_count + 1) TiledPaneLayout.default))) = 1 := by
          simp only [focusedLeafCount]
          rw [flc_splice _ t hf (by omega)]
          exact flc_extra _ (by omega)
        have hhf := hf_of_flc_pos _ (by omega : 0 < focusedLeafCount
          (spliceFirstMarker t
            (modifyLast (fun last_child => last_child.withFocus (some true))
              (List.replicate (m - t.pane_count + 1) TiledPaneLayout.default))))
        simp only [hhf, Bool.not_true, Bool.false_eq_true, if_false]
        exact hflc
  · rw [if_neg hgrow] at h
    have htr := truncate_no_focus t m hf
    have h2 : (Except.ok (if ! ((t.truncate m).1).has_focused_node then
        ((t.truncate m).1).focus_deepest_pane else (t.truncate m).1) :
        Except String TiledPaneLayout) = .ok t2 := h
    cases h2
    simp only [htr, Bool.not_false, if_true]
    exact flc_fdp _ htr

/-- C4 (amended), part on whole calls: position_panes_in_space with a
max_panes argument, on a tree with no focused node, returns a list in
which exactly one leaf is focused. -/
theorem position_some_focused_count (t : TiledPaneLayout) (s : PaneGeom) (m : Nat)
    (l : List (TiledPaneLayout × PaneGeom))
    (h : t.position_panes_in_space s (some m) = .ok l)
    (hf : t.has_focused_node = false) :
    (l.map Prod.fst).countP (fun c => c.focus == some true) = 1 := by
  obtain ⟨t2, hadj, hsplit⟩ := position_some_elim h
  rw [split_space_map_fst s t2 s l hsplit]
  have := adjust_focused_count hf hadj
  simpa [focusedLeafCount] using this

/-- C4 counterexample: on a tree whose third leaf (named c) is focused,
position_panes_in_space with max_panes = 2 drops that leaf in the
truncation step and focuses a different leaf (named b), so the
pre-existing focused leaf is not preserved. -/
theorem claim_C4_counterexample :
    focusDropTree.has_focused_node = true ∧
    ((leafNodes focusDropTree).filter (fun c => c.focus == some true)).map
        TiledPaneLayout.name = [some "c"] ∧
    (focusDropTree.position_panes_in_space space100 (some 2)).map
        (fun l => l.map (fun p => (p.1.name, p.1.focus))) =
      .ok [(some "a", none), (some "b", some true)] := ⟨rfl, rfl, rfl⟩

/-- C4 (amended): after position_panes_in_space with a max_panes
argument on a tree with no focused node, exactly one leaf of the
result is focused; a pre-existing focused leaf is preserved only when
it survives the truncation step; and focus_deepest_pane marks exactly
one childless node per call, leaving everything else unchanged. -/
theorem claim_C4_focus :
    (∀ (t : TiledPaneLayout) (s : PaneGeom) (m : Nat)
        (l : List (TiledPaneLayout × PaneGeom)),
      t.position_panes_in_space s (some m) = .ok l →
      t.has_focused_node = false →
      (l.map Prod.fst).countP (fun c => c.focus == some true) = 1) ∧
    (∀ t : TiledPaneLayout, MarksOneLeaf t t.focus_deepest_pane) :=
  ⟨position_some_focused_count, fdp_marks_one⟩

/-- Witness for C4: the unfocused eight-leaf tree positioned with
max_panes six yields exactly one focused leaf. -/
theorem claim_C4_focus_witness :
    deepTruncTree.has_focused_node = false ∧
    ∃ l, deepTruncTree.position_panes_in_space space100 (some 6) = .ok l ∧
      (l.map Prod.fst).countP (fun c => c.focus == some true) = 1 :=
  ⟨rfl, _, rfl, claim_C4_focus.1 deepTruncTree space100 6 _ rfl rfl⟩

/-- A successful Except value. -/
theorem isOk_elim {ε α : Type} {x : Except ε α} (h : x.isOk = true) : ∃ v, x = .ok v := by
  cases x with
  | error e => simp [Except.isOk, Except.toBool] at h
  | ok v => exact ⟨v, rfl⟩

/-- Decomposition of a failing Except bind: either the first stage
failed with that error, or it succeeded and the continuation failed. -/
theorem exceptBind_error {ε α β : Type} {x : Except ε α} {f : α → Except ε β} {e : ε}
    (h : x >>= f = .error e) : x = .error e ∨ ∃ v, x = .ok v ∧ f v = .error e := by
  cases x with
  | error e2 =>
    left
    have h2 : (Except.error e2 : Except ε β) = .error e := h
    rw [Except.error.inj h2]
  | ok v => exact Or.inr ⟨v, rfl, h⟩

/-- Decomposition of a successful Except bind. -/
theorem exceptBind_ok {ε α β : Type} {x : Except ε α} {f : α → Except ε β} {v : β}
    (h : x >>= f = .ok v) : ∃ w, x = .ok w ∧ f w = .ok v := by
  cases x with
  | error e2 =>
    have h2 : (Except.error e2 : Except ε β) = .ok v := h
    exact Except.noConfusion h2
  | ok w => exact ⟨w, rfl, h⟩

/-- The per-child dimension computation fails only with the
implicit-sizing message. -/
theorem splitDimensionFor_error {size : Option SplitSize} {sds : Dimension}
    {sall : List (Option SplitSize)} {fp : Nat} {e : String}
    (h : splitDimensionFor size sds sall fp = .error e) :
    e = "Implicit sizing within fixed-size panes is not supported" := by
  cases size with
  | some ss =>
    cases ss with
    | percent p => exact Except.noConfusion h
    | fixed ff => exact Except.noConfusion h
  | none =>
    simp only [splitDimensionFor] at h
    cases hp : sds.as_percent with
    | some p =>
      rw [hp] at h
      exact Except.noConfusion h
    | none =>
      rw [hp] at h
      exact (Except.error.inj h).symm

/-- The geometry-building loop fails only with the implicit-sizing
message. -/
theorem rawChildGeomsGo_error (dir : SplitDirection) (stacked : Bool) (sp : PaneGeom)
    (sds ind : Dimension) (adj : Nat) (sall : List (Option SplitSize)) (fp : Nat) :
    ∀ (sizes : List (Option SplitSize)) (cp : Nat) (e : String),
      rawChildGeomsGo dir stacked sp sds ind adj sall fp sizes cp = .error e →
      e = "Implicit sizing within fixed-size panes is not supported" := by
  intro sizes
  induction sizes with
  | nil =>
    intro cp e h
    exact Except.noConfusion h
  | cons size rest ih =>
    intro cp e h
    simp only [rawChildGeomsGo] at h
    rcases exceptBind_error h with herr | ⟨sd, hsd, hf⟩
    · exact splitDimensionFor_error herr
    · rcases exceptBind_error hf with herr2 | ⟨gs, hgs, hok⟩
      · exact ih _ _ herr2
      · exact Except.noConfusion hok

/-- The per-node sizing fails with the not-enough-room message exactly
on a minimum-size violation. -/
theorem childGeoms_error_notEnough {s : PaneGeom} {t : TiledPaneLayout} {total : PaneGeom}
    (h : TiledPaneLayout.childGeoms s t total = .error "Not enough room for panes") :
    nodeMinViolation s t := by
  by_cases hv : nodeMinViolation s t
  · exact hv
  · exfalso
    unfold nodeMinViolation at hv
    simp only [TiledPaneLayout.childGeoms, TiledPaneLayout.rawChildGeoms] at h
    rw [if_neg hv] at h
    cases hraw : rawChildGeomsGo t.children_split_direction t.children_are_stacked s
        (axisDimension t.children_split_direction s)
        (axisDimension t.children_split_direction.not s)
        ((axisDimension t.children_split_direction total).as_usize -
          totalFixedSize t.sizesOf)
        t.sizesOf ((t.sizesOf.filter Option.isNone).length) t.sizesOf
        (axisStart t.children_split_direction s) with
    | error msg =>
      rw [hraw] at h
      have h2 : (Except.error msg : Except String (List PaneGeom)) =
          .error "Not enough room for panes" := h
      have h3 := Except.error.inj h2
      have h4 := rawChildGeomsGo_error _ _ _ _ _ _ _ _ _ _ _ hraw
      rw [h4] at h3
      exact absurd h3 (by decide)
    | ok gs =>
      rw [hraw] at h
      exact Except.noConfusion h

/-- A minimum-size violation makes the per-node sizing fail with the
not-enough-room message. -/
theorem childGeoms_error_of_violation {s : PaneGeom} {t : TiledPaneLayout}
    {total : PaneGeom} (h : nodeMinViolation s t) :
    TiledPaneLayout.childGeoms s t total = .error "Not enough room for panes" := by
  unfold nodeMinViolation at h
  simp only [TiledPaneLayout.childGeoms, TiledPaneLayout.rawChildGeoms]
  rw [if_pos h]
  rfl

/-- A successful head step extends a successful prefix walk. -/
theorem splitSpaceGo_cons_isOk {total : PaneGeom} {part : TiledPaneLayout}
    {geom : PaneGeom} {rest : List TiledPaneLayout} {grest : List PaneGeom}
    (hhere : part.children.isEmpty = true ∨
      (TiledPaneLayout.split_space geom part total).isOk = true)
    (hrest : (TiledPaneLayout.splitSpaceGo rest grest total).isOk = true) :
    (TiledPaneLayout.splitSpaceGo (part :: rest) (geom :: grest) total).isOk = true := by
  obtain ⟨there, hthere⟩ := isOk_elim hrest
  simp only [TiledPaneLayout.splitSpaceGo]
  by_cases hleaf : part.children.isEmpty
  · rw [if_pos hleaf, hthere]
    rfl
  · rcases hhere with hl | hok
    · exact absurd hl hleaf
    · obtain ⟨lp, hlp⟩ := isOk_elim hok
      rw [if_neg hleaf, hlp, hthere]
      rfl

/-- A successful walk over a cons decomposes into a successful head
step and a successful tail walk. -/
theorem splitSpaceGo_cons_isOk_elim {total : PaneGeom} {part : TiledPaneLayout}
    {geom : PaneGeom} {rest : List TiledPaneLayout} {grest : List PaneGeom}
    (h : (TiledPaneLayout.splitSpaceGo (part :: rest) (geom :: grest) total).isOk = true) :
    (TiledPaneLayout.splitSpaceGo rest grest total).isOk = true ∧
      (part.children.isEmpty = true ∨
        (TiledPaneLayout.split_space geom part total).isOk = true) := by
  obtain ⟨v, hv⟩ := isOk_elim h
  simp only [TiledPaneLayout.splitSpaceGo] at hv
  by_cases hleaf : part.children.isEmpty
  · rw [if_pos hleaf] at hv
    rcases exceptBind_ok hv with ⟨here, hhere, hcont⟩
    rcases exceptBind_ok hcont with ⟨there, hthere, _⟩
    exact ⟨by rw [hthere]; rfl, Or.inl hleaf⟩
  · rw [if_neg hleaf] at hv
    rcases exceptBind_ok hv with ⟨here, hhere, hcont⟩
    rcases exceptBind_ok hcont with ⟨there, hthere, _⟩
    exact ⟨by rw [hthere]; rfl, Or.inr (by rw [hhere]; rfl)⟩

/-- Decomposition of a failing recursion loop: either a geometry was
missing, or some child with children, whose earlier siblings were all
processed successfully, failed with that error. -/
theorem splitSpaceGo_error (total : PaneGeom) :
    ∀ (parts : List TiledPaneLayout) (geoms : List PaneGeom) (e : String),
      TiledPaneLayout.splitSpaceGo parts geoms total = .error e →
      e = "missing geometry for pane" ∨
      ∃ i part geom, parts.get? i = some part ∧ geoms.get? i = some geom ∧
        part.children ≠ [] ∧
        (TiledPaneLayout.splitSpaceGo (parts.take i) (geoms.take i) total).isOk = true ∧
        TiledPaneLayout.split_space geom part total = .error e := by
  intro parts
  induction parts with
  | nil =>
    intro geoms e h
    exact Except.noConfusion h
  | cons part rest ih =>
    intro geoms e h
    cases geoms with
    | nil =>
      left
      exact (Except.error.inj h).symm
    | cons geom grest =>
      simp only [TiledPaneLayout.splitSpaceGo] at h
      by_cases hleaf : part.children.isEmpty
      · rw [if_pos hleaf] at h
        rcases exceptBind_error h with herr | ⟨here, hhere, hcont⟩
        · exact Except.noConfusion herr
        · rcases exceptBind_error hcont with herr2 | ⟨there, hthere, hok⟩
          · rcases ih grest e herr2 with hmiss | ⟨i, p', g', h1, h2, h3, h4, h5⟩
            · exact Or.inl hmiss
            · right
              refine ⟨i + 1, p', g', by simpa using h1, by simpa using h2, h3, ?_, h5⟩
              simp only [List.take_succ_cons]
              exact splitSpaceGo_cons_isOk (Or.inl hleaf) h4
          · exact Except.noConfusion hok
      · rw [if_neg hleaf] at h
        rcases exceptBind_error h with herr | ⟨here, hhere, hcont⟩
        · right
          exact ⟨0, part, geom, rfl, rfl, by simpa [List.isEmpty_iff] using hleaf, rfl, herr⟩
        · rcases exceptBind_error hcont with herr2 | ⟨there, hthere, hok⟩
          · rcases ih grest e herr2 with hmiss | ⟨i, p', g', h1, h2, h3, h4, h5⟩
            · exact Or.inl hmiss
            · right
              refine ⟨i + 1, p', g', by simpa using h1, by simpa using h2, h3, ?_, h5⟩
              simp only [List.take_succ_cons]
              exact splitSpaceGo_cons_isOk (Or.inr (by rw [hhere]; rfl)) h4
          · exact Except.noConfusion hok

/-- A failing child behind a successful prefix makes the whole
recursion loop fail with the same error. -/
theorem splitSpaceGo_error_at (total : PaneGeom) :
    ∀ (i : Nat) (parts : List TiledPaneLayout) (geoms : List PaneGeom)
      (part : TiledPaneLayout) (geom : PaneGeom) (E : String),
      parts.get? i = some part → geoms.get? i = some geom →
      part.children ≠ [] →
      (TiledPaneLayout.splitSpaceGo (parts.take i) (geoms.take i) total).isOk = true →
      TiledPaneLayout.split_space geom part total = .error E →
      TiledPaneLayout.splitSpaceGo parts geoms total = .error E := by
  intro i
  induction i with
  | zero =>
    intro parts geoms part geom E h1 h2 h3 _ h5
    cases parts with
    | nil => exact Option.noConfusion h1
    | cons p ps =>
      cases geoms with
      | nil => exact Option.noConfusion h2
      | cons g gs =>
        have hp : p = part := by simpa using h1
        have hg : g = geom := by simpa using h2
        subst hp
        subst hg
        simp only [TiledPaneLayout.splitSpaceGo]
        rw [if_neg (by simpa [List.isEmpty_iff] using h3), h5]
        rfl
  | succ i' ihi =>
    intro parts geoms part geom E h1 h2 h3 h4 h5
    cases parts with
    | nil => exact Option.noConfusion h1
    | cons p ps =>
      cases geoms with
      | nil => exact Option.noConfusion h2
      | cons g gs =>
        obtain ⟨hrest_ok, hhere⟩ := splitSpaceGo_cons_isOk_elim
          (by simpa [List.take_succ_cons] using h4)
        have hrec := ihi ps gs part geom E (by simpa using h1) (by simpa using h2) h3
          hrest_ok h5
        simp only [TiledPaneLayout.splitSpaceGo]
        by_cases hleaf : p.children.isEmpty
        · rw [if_pos hleaf, hrec]
          rfl
        · rcases hhere with hl | hok
          · exact absurd hl hleaf
          · obtain ⟨lp, hlp⟩ := isOk_elim hok
            rw [if_neg hleaf, hlp, hrec]
            rfl

/-- Soundness half of C6: the not-enough-room error always points at a
visited node violating the minimum-size bound. -/
theorem split_space_error_notEnough (total : PaneGeom) (t : TiledPaneLayout) :
    ∀ s : PaneGeom,
      TiledPaneLayout.split_space s t total = .error "Not enough room for panes" →
      ∃ s' t', Visits s t total s' t' ∧ nodeMinViolation s' t' := by
  induction t using TiledPaneLayout.ind_on with
  | h d n cs ssz r b f e st ih =>
    intro s h
    simp only [TiledPaneLayout.split_space] at h
    rcases exceptBind_error h with herr | ⟨gs, hgs, hf2⟩
    · exact ⟨s, _, Visits.refl s _ total, childGeoms_error_notEnough herr⟩
    · rcases exceptBind_error hf2 with herr2 | ⟨ps, hps, hok⟩
      · rcases splitSpaceGo_error total cs gs _ herr2 with hmiss |
          ⟨i, part, geom, h1, h2, h3, h4, h5⟩
        · exact absurd hmiss (by decide)
        · obtain ⟨s'', t'', hv, hviol⟩ := ih part (List.get?_mem h1) geom h5
          exact ⟨s'', t'', Visits.step gs i hgs h1 h2 h3 h4 hv, hviol⟩
      · by_cases hemp : ps.isEmpty
        · rw [if_pos hemp] at hok
          exact Except.noConfusion hok
        · rw [if_neg hemp] at hok
          exact Except.noConfusion hok

/-- Completeness half of C6: a visited node violating the minimum-size
bound makes the whole call fail with the not-enough-room error. -/
theorem split_space_error_of_visits (total : PaneGeom) {s : PaneGeom}
    {t : TiledPaneLayout} {s2 : PaneGeom} {t2 : TiledPaneLayout}
    (hv : Visits s t total s2 t2) :
    nodeMinViolation s2 t2 →
    TiledPaneLayout.split_space s t total = .error "Not enough room for panes" := by
  induction hv with
  | refl s0 t0 total0 =>
    intro hviol
    obtain ⟨d, n, cs, ssz, r, b, f, e, st⟩ := t0
    simp only [TiledPaneLayout.split_space]
    rw [childGeoms_error_of_violation hviol]
    rfl
  | @step s0 t0 total0 s1 t1 s2x t2x gs i hgs hget hgget hne hpre hv2 ihv =>
    intro hviol
    have herr := ihv hviol
    have hwalk := splitSpaceGo_error_at total0 i t0.children gs t1 s1 _ hget hgget hne
      hpre herr
    obtain ⟨d, n, cs, ssz, r, b, f, e, st⟩ := t0
    simp only [TiledPaneLayout.children] at hwalk
    simp only [TiledPaneLayout.split_space]
    rw [hgs]
    show (do
        let pane_positions ← TiledPaneLayout.splitSpaceGo cs gs total0
        if pane_positions.isEmpty then
          Except.ok [(TiledPaneLayout.mk d n cs ssz r b f e st, s0)]
        else Except.ok pane_positions) = Except.error "Not enough room for panes"
    rw [hwalk]
    rfl

/-- C6: split_space returns the not-enough-room error exactly when some
node it visits has children whose declared minimum sizes (one unit per
percent or flexible child, n per Fixed(n) child) exceed the span
available to that node along its split axis; absent any such violation
among visited nodes, that error is never produced. -/
theorem claim_C6_min_size_error (s : PaneGeom) (t : TiledPaneLayout) (total : PaneGeom) :
    TiledPaneLayout.split_space s t total = .error "Not enough room for panes" ↔
      ∃ s' t', Visits s t total s' t' ∧ nodeMinViolation s' t' := by
  constructor
  · exact split_space_error_notEnough total t s
  · rintro ⟨s', t', hv, hviol⟩
    exact split_space_error_of_visits total hv hviol

/-- Witness for C6 at a concrete input: a single Fixed(200) child does
not fit in 100 columns, and the error indeed points at a visited
violating node. -/
theorem claim_C6_min_size_error_witness :
    TiledPaneLayout.split_space space100 crampedTree space100 =
      .error "Not enough room for panes" ∧
    ∃ s' t', Visits space100 crampedTree space100 s' t' ∧ nodeMinViolation s' t' :=
  ⟨rfl, (claim_C6_min_size_error space100 crampedTree space100).mp rfl⟩

end ZellijLayout
